import Mathlib

/-!
Verification of the optimization-suggestion engine of `src/server/lib/optimization.ts`
(class `AdOptimizer`), shallowly embedded in Lean.

Modelling conventions:
* JavaScript numbers are modelled as exact rationals (`ℚ`).  The engine only
  adds, divides and compares values of dashboard magnitude, where binary
  floating point and exact arithmetic agree on every comparison the claims
  talk about; floating-point rounding itself is not modelled.
* Arithmetic inside the embedded code is written with `mkRat`-based helpers
  (`radd`, `rsub`, `rmulN`, `rdivN`) which are proved equal to the ordinary
  `ℚ` operations (`radd_eq` …).  The helpers are kernel-reducible, so concrete
  runs of the engine can be checked by `decide`; Batteries' `Rat.add` is
  irreducible and cannot be evaluated by the kernel.
* JavaScript strings are modelled as `String`; the string functions the code
  uses (`split(' ')`, `split(/\s+/)`, `toLowerCase`, `join`) are implemented
  structurally over `List Char`.  `split(/\s+/)` is modelled as splitting at
  every whitespace character; the two differ only in empty pieces produced by
  runs of whitespace, and every use site discards pieces of length `≤ 3`, so
  the observable behaviour is identical.
* A JavaScript `Map` (string keys, insertion-ordered iteration, `set` on an
  existing key keeps its position) is modelled as an association list with
  `lookupL` / `setL`.
* The loosely-typed `performance` blob is an optional record of optional
  numeric fields; a JavaScript truthiness test `if (perf.ctr)` is `ctr`
  present and nonzero.
-/

namespace AdCopy

/-! ### Kernel-reducible rational arithmetic, with bridges to the `ℚ` operations -/

/-- `a + b` on `ℚ`, computed through `mkRat` so the kernel can reduce it. -/
def radd (a b : ℚ) : ℚ := mkRat (a.num * b.den + b.num * a.den) (a.den * b.den)

/-- `a - b` on `ℚ`, computed through `mkRat`. -/
def rsub (a b : ℚ) : ℚ := mkRat (a.num * b.den - b.num * a.den) (a.den * b.den)

/-- `a * n` for a natural `n`, computed through `mkRat`. -/
def rmulN (a : ℚ) (n : Nat) : ℚ := mkRat (a.num * n) a.den

/-- `a / n` for a natural `n`, computed through `mkRat`. -/
def rdivN (a : ℚ) (n : Nat) : ℚ := mkRat a.num (a.den * n)

/-- `(n : ℚ)`, computed through `mkRat`. -/
def natQ (n : Nat) : ℚ := mkRat n 1

/-- `(i : ℚ)`, computed through `mkRat`. -/
def intQ (i : Int) : ℚ := mkRat i 1

theorem radd_eq (a b : ℚ) : radd a b = a + b := (Rat.add_def' a b).symm

theorem rsub_eq (a b : ℚ) : rsub a b = a - b := by
  have h1 : (-b).num = -b.num := rfl
  have h2 : (-b).den = b.den := rfl
  rw [sub_eq_add_neg, ← radd_eq, rsub, radd, h1, h2]
  congr 1
  ring

theorem rdivN_eq (a : ℚ) (n : Nat) : rdivN a n = a / n := by
  rw [rdivN, Rat.mkRat_eq_div]
  push_cast
  rw [div_mul_eq_div_div, Rat.num_div_den]

theorem natQ_eq (n : Nat) : natQ n = (n : ℚ) := by
  rw [natQ, Rat.mkRat_eq_div]
  simp

theorem intQ_eq (i : Int) : intQ i = (i : ℚ) := by
  rw [intQ, Rat.mkRat_eq_div]
  simp

theorem rmulN_eq (a : ℚ) (n : Nat) : rmulN a n = a * n := by
  rw [rmulN, Rat.mkRat_eq_div]
  push_cast
  calc ((a.num : ℚ) * n) / a.den = ((a.num : ℚ) / a.den) * n := by ring
  _ = a * n := by rw [Rat.num_div_den]

/-- Sum of a list of rationals, via `radd` (a `reduce`-style fold). -/
def rsum (l : List ℚ) : ℚ := l.foldl radd 0

theorem rsum_eq (l : List ℚ) : rsum l = l.sum := by
  have h : ∀ (l : List ℚ) (a : ℚ), l.foldl radd a = a + l.sum := by
    intro l
    induction l with
    | nil => simp
    | cons x xs ih => intro a; simp [List.foldl_cons, radd_eq, ih, add_assoc]
  simpa using h l 0

theorem rsum_cons (x : ℚ) (l : List ℚ) : rsum (x :: l) = x + rsum l := by
  simp [rsum_eq, List.sum_cons]

/-- Arithmetic mean of a list of rationals (`0` for the empty list, which the
code never queries). -/
def rmean (l : List ℚ) : ℚ := rdivN (rsum l) l.length

theorem rmean_eq (l : List ℚ) : rmean l = l.sum / l.length := by
  rw [rmean, rdivN_eq, rsum_eq]

/-- `Math.round`: round half towards positive infinity. -/
def jsRound (q : ℚ) : Int := Rat.floor (radd q (mkRat 1 2))

theorem jsRound_eq (q : ℚ) : jsRound q = ⌊q + 1/2⌋ := by
  have h : (mkRat 1 2 : ℚ) = 1/2 := by norm_num [Rat.mkRat_eq_div]
  rw [jsRound, radd_eq, h, (Rat.floor_def' _).trans Rat.floor_def.symm]

/-- `Math.ceil (n * 0.3)` for a natural `n` (the "top 30 %" slice size). -/
def ceil30 (n : Nat) : Nat := (3 * n + 9) / 10

theorem ceil30_eq (n : Nat) : ceil30 n = ⌈(n : ℚ) * (3/10)⌉.toNat := by
  have hceil : ⌈(n : ℚ) * (3/10)⌉ = ((3 * n + 9) / 10 : ℕ) := by
    have h1 : 10 * ((3 * n + 9) / 10) ≤ 3 * n + 9 := by omega
    have h2 : 3 * n ≤ 10 * ((3 * n + 9) / 10) := by omega
    have h1q : (10 : ℚ) * (((3 * n + 9) / 10 : ℕ) : ℚ) ≤ 3 * (n : ℚ) + 9 := by
      exact_mod_cast h1
    have h2q : 3 * (n : ℚ) ≤ 10 * (((3 * n + 9) / 10 : ℕ) : ℚ) := by
      exact_mod_cast h2
    have hz : ((((3 * n + 9) / 10 : ℕ) : ℤ) : ℚ) = (((3 * n + 9) / 10 : ℕ) : ℚ) := by
      exact_mod_cast rfl
    rw [Int.ceil_eq_iff, hz]
    constructor
    · linarith
    · linarith
  rw [ceil30, hceil]
  omega

theorem one_le_ceil30 (n : Nat) (h : 1 ≤ n) : 1 ≤ ceil30 n := by
  unfold ceil30; omega

theorem ceil30_le (n : Nat) : ceil30 n ≤ n := by
  unfold ceil30; omega

/-! ### Strings: `split`, `join`, `toLowerCase`, decimal formatting -/

/-- Split a character list at every separator character, keeping empty pieces
(JavaScript `String.prototype.split` semantics; `"" → [""]`). -/
def splitCh (p : Char → Bool) : List Char → List (List Char)
  | [] => [[]]
  | c :: cs =>
    if p c then [] :: splitCh p cs
    else
      match splitCh p cs with
      | [] => [[c]]
      | t :: ts => (c :: t) :: ts

/-- JavaScript `s.split(' ')`. -/
def splitSp (s : String) : List String := (splitCh (· = ' ') s.data).map String.mk

/-- JavaScript `s.split(/\s+/)`, modulo empty pieces (see the header comment). -/
def splitWs (s : String) : List String := (splitCh Char.isWhitespace s.data).map String.mk

/-- JavaScript `parts.join(sep)`. -/
def joinSep (sep : String) : List String → String
  | [] => ""
  | [s] => s
  | s :: rest => s ++ sep ++ joinSep sep rest

/-- JavaScript `s.toLowerCase()` (ASCII, which is all the code feeds it). -/
def lowerStr (s : String) : String := String.mk (s.data.map Char.toLower)

/-- JavaScript `q.toFixed(1)` for the non-negative rationals the engine
formats (round to one decimal, render `int.frac`). -/
def fmtFixed1 (q : ℚ) : String :=
  let n := jsRound (rmulN q 10)
  toString (n / 10) ++ "." ++ toString (n % 10).natAbs

/-- JavaScript `q.toFixed(0)` for non-negative rationals. -/
def fmtFixed0 (q : ℚ) : String := toString (jsRound q)

/-! ### Association lists as insertion-ordered JavaScript `Map`s -/

/-- `Map.prototype.get`. -/
def lookupL {β : Type} (k : String) : List (String × β) → Option β
  | [] => none
  | (k', v) :: m => if k' = k then some v else lookupL k m

/-- `Map.prototype.set`: replace in place, or append a new key. -/
def setL {β : Type} (k : String) (v : β) : List (String × β) → List (String × β)
  | [] => [(k, v)]
  | (k', v') :: m => if k' = k then (k, v) :: m else (k', v') :: setL k v m

/-- The keys of an association list, in order. -/
def keysL {β : Type} (m : List (String × β)) : List String := m.map Prod.fst

theorem lookupL_setL_same {β : Type} (k : String) (v : β) (m : List (String × β)) :
    lookupL k (setL k v m) = some v := by
  induction m with
  | nil => simp [setL, lookupL]
  | cons e m ih =>
    obtain ⟨k', v'⟩ := e
    by_cases h : k' = k <;> simp [setL, lookupL, h, ih]

theorem lookupL_setL_ne {β : Type} {k' k : String} (h : k' ≠ k) (v : β)
    (m : List (String × β)) : lookupL k (setL k' v m) = lookupL k m := by
  induction m with
  | nil => simp [setL, lookupL, h]
  | cons e m ih =>
    obtain ⟨k₀, v₀⟩ := e
    by_cases h₀ : k₀ = k'
    · subst h₀
      simp [setL, lookupL, h, ih]
    · by_cases h₁ : k₀ = k <;> simp [setL, lookupL, h₀, h₁, Ne.symm h, ih]

theorem keysL_setL {β : Type} (k : String) (v : β) (m : List (String × β)) :
    keysL (setL k v m) = if k ∈ keysL m then keysL m else keysL m ++ [k] := by
  induction m with
  | nil => simp [setL, keysL]
  | cons e m ih =>
    obtain ⟨k₀, v₀⟩ := e
    by_cases h₀ : k₀ = k
    · subst h₀
      simp [setL, keysL]
    · have hcons : keysL (setL k v ((k₀, v₀) :: m)) = k₀ :: keysL (setL k v m) := by
        simp [setL, keysL, h₀]
      rw [hcons, ih]
      by_cases h₁ : k ∈ List.map Prod.fst m
      · simp [keysL, List.mem_cons, h₁, Ne.symm h₀]
      · simp [keysL, List.mem_cons, h₁, Ne.symm h₀]

theorem lookupL_eq_none {β : Type} (k : String) (m : List (String × β)) :
    lookupL k m = none ↔ k ∉ keysL m := by
  induction m with
  | nil => simp [lookupL, keysL]
  | cons e m ih =>
    obtain ⟨k₀, v₀⟩ := e
    by_cases h₀ : k₀ = k
    · subst h₀
      simp [lookupL, keysL]
    · simp [lookupL, keysL, h₀, ih, Ne.symm h₀]

theorem mem_of_lookupL {β : Type} {k : String} {v : β} {m : List (String × β)}
    (h : lookupL k m = some v) : (k, v) ∈ m := by
  induction m with
  | nil => simp [lookupL] at h
  | cons e m ih =>
    obtain ⟨k₀, v₀⟩ := e
    by_cases h₀ : k₀ = k
    · subst h₀
      have h' : v₀ = v := by simpa [lookupL] using h
      subst h'
      exact List.mem_cons_self _ _
    · exact List.mem_cons_of_mem _ (ih (by simpa [lookupL, h₀] using h))

theorem lookupL_of_mem {β : Type} {k : String} {v : β} {m : List (String × β)}
    (hnd : (keysL m).Nodup) (h : (k, v) ∈ m) : lookupL k m = some v := by
  induction m with
  | nil => simp at h
  | cons e m ih =>
    obtain ⟨k₀, v₀⟩ := e
    simp only [keysL, List.map_cons, List.nodup_cons] at hnd
    rcases List.mem_cons.mp h with h | h
    · rw [Prod.mk.injEq] at h
      obtain ⟨rfl, rfl⟩ := h
      simp [lookupL]
    · have hk : k₀ ≠ k := by
        rintro rfl
        exact hnd.1 (List.mem_map_of_mem Prod.fst h)
      simp [lookupL, hk, ih hnd.2 h]

/-! ### Data model (`shared/schema.ts` fields the engine reads) -/

/-- `OptimizationSuggestion.type`. -/
inductive SType where
  | headline | description | tone | focus | keywords
deriving DecidableEq

/-- `OptimizationSuggestion.priority`. -/
inductive Priority where
  | high | medium | low
deriving DecidableEq

/-- An engine output (`OptimizationSuggestion` in `optimization.ts`). -/
structure OptimizationSuggestion where
  type : SType
  priority : Priority
  title : String
  description : String
  impact : String
  confidence : ℚ
  basedOn : String
deriving DecidableEq

/-- The loosely-typed `performance` blob: each numeric field independently
present or absent (a missing field is "no signal", not zero). -/
structure PerformanceMetrics where
  ctr : Option ℚ
  impressions : Option ℚ
  clicks : Option ℚ
  conversions : Option ℚ
  cost : Option ℚ
  cpc : Option ℚ
deriving DecidableEq

/-- A stored ad (`GeneratedAd`), restricted to the fields the optimizer
reads: headline, description, tone, performance, creation time (ms since
epoch).  `id`, `userId`, `campaignId`, `displayUrl`, `focus`, `status` are
never read by `optimization.ts` and are omitted. -/
structure GeneratedAd where
  headline : String
  description : String
  tone : Option String
  performance : Option PerformanceMetrics
  createdAt : Int
deriving DecidableEq

/-- The `ctr` field reached through the optional blob (`ad.performance?.ctr`). -/
def perfCtr (ad : GeneratedAd) : Option ℚ := ad.performance.bind (·.ctr)

/-- JavaScript truthiness of `perf.ctr`: present and nonzero. -/
def truthyCtr (ad : GeneratedAd) : Bool :=
  match perfCtr ad with
  | some c => c ≠ 0
  | none => false

/-- JavaScript truthiness of `ad.tone`: present and nonempty. -/
def truthyTone (ad : GeneratedAd) : Bool :=
  match ad.tone with
  | some t => t ≠ ""
  | none => false

/-! ### The embedded engine (`AdOptimizer`) -/

/-- Heuristic constant `0.02` (CTR threshold for the headline/tone analyzers). -/
def ctrThreshold : ℚ := mkRat 1 50

/-- Heuristic constant `0.025` (CTR threshold for the keyword analyzer). -/
def keywordCtrThreshold : ℚ := mkRat 1 40

/-- Heuristic constant `0.015` (baseline CTR in the headline impact figure). -/
def ctrBaseline : ℚ := mkRat 3 200

theorem ctrThreshold_eq : ctrThreshold = 1/50 := by
  norm_num [ctrThreshold, Rat.mkRat_eq_div]

theorem keywordCtrThreshold_eq : keywordCtrThreshold = 1/40 := by
  norm_num [keywordCtrThreshold, Rat.mkRat_eq_div]

theorem ctrBaseline_eq : ctrBaseline = 3/200 := by
  norm_num [ctrBaseline, Rat.mkRat_eq_div]

/-- First-three-words pattern key: `ad.headline.split(' ').slice(0, 3).join(' ')`. -/
def patternOf (ad : GeneratedAd) : String := joinSep " " ((splitSp ad.headline).take 3)

/-- The running value stored per pattern / tone: `{ total, count, avgCtr }`
(the tone analyzer calls the third field `ctr`). -/
structure CtrAcc where
  total : ℚ
  count : Nat
  avgCtr : ℚ
deriving DecidableEq

/-- One step of the `extractHeadlinePatterns` fold: ads with a truthy `ctr`
bump their pattern's accumulator, every other ad is skipped. -/
def patternStep (m : List (String × CtrAcc)) (ad : GeneratedAd) : List (String × CtrAcc) :=
  match perfCtr ad with
  | some c =>
    if c ≠ 0 then
      let key := patternOf ad
      let e := (lookupL key m).getD ⟨0, 0, 0⟩
      let t := radd e.total c
      setL key ⟨t, e.count + 1, rdivN t (e.count + 1)⟩ m
    else m
  | none => m

/-- `extractHeadlinePatterns`: group by pattern key, keep groups of `≥ 2`. -/
def extractHeadlinePatterns (ads : List GeneratedAd) : List (String × CtrAcc) :=
  (ads.foldl patternStep []).filter (fun e => 2 ≤ e.2.count)

/-- Sort order used on pattern groups: `(a, b) => b.avgCtr - a.avgCtr`. -/
def accGE (a b : String × CtrAcc) : Prop := b.2.avgCtr ≤ a.2.avgCtr

instance : DecidableRel accGE := fun _ _ => inferInstanceAs (Decidable (_ ≤ _))

instance : IsTotal (String × CtrAcc) accGE := ⟨fun a b => le_total b.2.avgCtr a.2.avgCtr⟩

instance : IsTrans (String × CtrAcc) accGE := ⟨fun _ _ _ h1 h2 => le_trans h2 h1⟩

/-- The suggestion pushed by `analyzeHeadlinePerformance`. -/
def mkHeadlineSugg (e : String × CtrAcc) : OptimizationSuggestion where
  type := .headline
  priority := .high
  title := "Optimize Headlines Based on Top Performers"
  description := "Headlines starting with \"" ++ e.1 ++ "\" show "
    ++ fmtFixed1 (rmulN e.2.avgCtr 100) ++ "% CTR"
  impact := "+" ++ fmtFixed1 (rmulN (rsub e.2.avgCtr ctrBaseline) 100) ++ "% CTR improvement"
  confidence := 85
  basedOn := toString e.2.count ++ " high-performing ads"

/-- `analyzeHeadlinePerformance`. -/
def analyzeHeadlinePerformance (ads : List GeneratedAd) : List OptimizationSuggestion :=
  let topPerforming := (List.insertionSort accGE (extractHeadlinePatterns ads)).take 3
  match topPerforming.head? with
  | some top => if ctrThreshold < top.2.avgCtr then [mkHeadlineSugg top] else []
  | none => []

/-- One step of the `analyzeTonePerformance` fold: ads with a truthy tone and
a truthy `ctr` bump their tone's accumulator. -/
def toneStep (m : List (String × CtrAcc)) (ad : GeneratedAd) : List (String × CtrAcc) :=
  if truthyTone ad then
    match perfCtr ad with
    | some c =>
      if c ≠ 0 then
        let key := ad.tone.getD ""
        let e := (lookupL key m).getD ⟨0, 0, 0⟩
        let t := radd e.total c
        setL key ⟨t, e.count + 1, rdivN t (e.count + 1)⟩ m
      else m
    | none => m
  else m

/-- The suggestion pushed by `analyzeTonePerformance`. -/
def mkToneSugg (e : String × CtrAcc) : OptimizationSuggestion where
  type := .tone
  priority := .medium
  title := "\"" ++ e.1 ++ "\" Tone Performs Best"
  description := "Your \"" ++ e.1 ++ "\" tone ads achieve "
    ++ fmtFixed1 (rmulN e.2.avgCtr 100) ++ "% CTR"
  impact := "Consider using this tone for future campaigns"
  confidence := 75
  basedOn := toString e.2.count ++ " ads analyzed"

/-- `analyzeTonePerformance`. -/
def analyzeTonePerformance (ads : List GeneratedAd) : List OptimizationSuggestion :=
  let tonePerformance := ads.foldl toneStep []
  let bestTone :=
    (List.insertionSort accGE (tonePerformance.filter (fun e => 2 ≤ e.2.count))).head?
  match bestTone with
  | some bt => if ctrThreshold < bt.2.avgCtr then [mkToneSugg bt] else []
  | none => []

/-- One row of `lengthData`. -/
structure LengthDatum where
  headlineLength : Nat
  descLength : Nat
  ctr : ℚ
deriving DecidableEq

/-- `lengthData`: performance-bearing ads, `ctr || 0`, kept when positive. -/
def lengthData (ads : List GeneratedAd) : List LengthDatum :=
  ((ads.filter (·.performance.isSome)).map
      (fun ad => LengthDatum.mk ad.headline.length ad.description.length ((perfCtr ad).getD 0))
    ).filter (fun d => decide (0 < d.ctr))

/-- Sort order on `lengthData` rows: `(a, b) => b.ctr - a.ctr`. -/
def ctrGE (a b : LengthDatum) : Prop := b.ctr ≤ a.ctr

instance : DecidableRel ctrGE := fun _ _ => inferInstanceAs (Decidable (_ ≤ _))

instance : IsTotal LengthDatum ctrGE := ⟨fun a b => le_total b.ctr a.ctr⟩

instance : IsTrans LengthDatum ctrGE := ⟨fun _ _ _ h1 h2 => le_trans h2 h1⟩

/-- `Math.min(...lengths)` for the nonempty lists the code feeds it. -/
def listMin : List Nat → Nat
  | [] => 0
  | h :: t => t.foldl Nat.min h

/-- `Math.max(...lengths)` for the nonempty lists the code feeds it. -/
def listMax : List Nat → Nat
  | [] => 0
  | h :: t => t.foldl Nat.max h

/-- The record returned by `findOptimalLength`. -/
structure OptimalLength where
  optimal : Int
  range : String
  improvement : ℚ
  confidence : ℚ
deriving DecidableEq

/-- `findOptimalLength` (for the `headlineLength` field, the only call site). -/
def findOptimalLength (data : List LengthDatum) : OptimalLength :=
  let sorted := List.insertionSort ctrGE data
  let topPerformers := sorted.take (ceil30 sorted.length)
  let lengths := topPerformers.map (·.headlineLength)
  let avgLength := rdivN (rsum (lengths.map natQ)) lengths.length
  { optimal := jsRound avgLength
    range := toString (listMin lengths) ++ "-" ++ toString (listMax lengths)
    improvement := mkRat 3 20
    confidence := mkRat 3 4 }

/-- The suggestion pushed by `analyzeLengthPerformance`. -/
def mkLengthSugg (o : OptimalLength) (n : Nat) : OptimizationSuggestion where
  type := .headline
  priority := .medium
  title := "Optimize Headline Length"
  description := "Headlines around " ++ o.range ++ " characters perform "
    ++ fmtFixed0 (rmulN o.improvement 100) ++ "% better"
  impact := "Target " ++ toString o.optimal ++ " characters for headlines"
  confidence := intQ (jsRound (rmulN o.confidence 100))
  basedOn := toString n ++ " ads analyzed"

/-- `analyzeLengthPerformance`. -/
def analyzeLengthPerformance (ads : List GeneratedAd) : List OptimizationSuggestion :=
  let d := lengthData ads
  if 5 ≤ d.length then
    let o := findOptimalLength d
    if mkRat 7 10 < o.confidence then [mkLengthSugg o d.length] else []
  else []

/-- The keyword analyzer's selection test: `ad.performance && perf.ctr > 0.025`. -/
def keywordQualifies (ad : GeneratedAd) : Bool :=
  ad.performance.isSome &&
    match perfCtr ad with
    | some c => decide (keywordCtrThreshold < c)
    | none => false

/-- The fixed stop-word list. -/
def stopWords : List String := ["with", "your", "that", "this", "from", "will", "have"]

/-- Token filter: length `> 3` and not a stop word. -/
def wordEligible (w : String) : Bool := 3 < w.length && !(stopWords.contains w)

/-- The tokens one ad contributes:
`(headline + ' ' + description).toLowerCase().split(/\s+/)` then the filter. -/
def eligibleWords (ad : GeneratedAd) : List String :=
  (splitWs (lowerStr (ad.headline ++ " " ++ ad.description))).filter wordEligible

/-- One step of the word-count fold. -/
def wordStep (m : List (String × Nat)) (w : String) : List (String × Nat) :=
  setL w ((lookupL w m).getD 0 + 1) m

/-- Sort order on word counts: `(a, b) => b[1] - a[1]`. -/
def countGE (a b : String × Nat) : Prop := b.2 ≤ a.2

instance : DecidableRel countGE := fun _ _ => inferInstanceAs (Decidable (_ ≤ _))

instance : IsTotal (String × Nat) countGE := ⟨fun a b => le_total b.2 a.2⟩

instance : IsTrans (String × Nat) countGE := ⟨fun _ _ _ h1 h2 => le_trans h2 h1⟩

/-- `extractCommonWords`. -/
def extractCommonWords (ads : List GeneratedAd) : List String :=
  let wordCounts := ads.foldl (fun m ad => (eligibleWords ad).foldl wordStep m) []
  (((List.insertionSort countGE (wordCounts.filter (fun e => 2 ≤ e.2))).take 5).map (·.1))

/-- The suggestion pushed by `analyzeKeywordPerformance`. -/
def mkKeywordSugg (ws : List String) (n : Nat) : OptimizationSuggestion where
  type := .keywords
  priority := .medium
  title := "High-Impact Keywords Identified"
  description := "Words like \"" ++ joinSep "\", \"" (ws.take 3) ++ "\" appear in your best ads"
  impact := "Include these keywords in future campaigns"
  confidence := 70
  basedOn := toString n ++ " top-performing ads"

/-- `analyzeKeywordPerformance`. -/
def analyzeKeywordPerformance (ads : List GeneratedAd) : List OptimizationSuggestion :=
  let highPerformingAds := (ads.filter keywordQualifies).take 10
  if 3 ≤ highPerformingAds.length then
    let commonWords := extractCommonWords highPerformingAds
    if commonWords.isEmpty then [] else [mkKeywordSugg commonWords highPerformingAds.length]
  else []

/-- `(Date.now() - createdAt) / 86400000 <= 30`. -/
def isRecent (now : Int) (ad : GeneratedAd) : Bool :=
  decide ((mkRat (now - ad.createdAt) 86400000) ≤ (30 : ℚ))

/-- The suggestion pushed by `analyzeVolumePatterns`. -/
def volumeSuggestion : OptimizationSuggestion where
  type := .description
  priority := .low
  title := "Generate More Ad Variations"
  description := "Create more ad variations to improve optimization insights"
  impact := "Better performance data for smarter suggestions"
  confidence := 60
  basedOn := "Statistical significance requirements"

/-- `analyzeVolumePatterns` (the clock reading is passed in explicitly). -/
def analyzeVolumePatterns (now : Int) (ads : List GeneratedAd) : List OptimizationSuggestion :=
  let recentAds := ads.filter (isRecent now)
  if recentAds.length < 5 then [volumeSuggestion] else []

/-- `getBasicSuggestions`: the fixed fallback list. -/
def getBasicSuggestions : List OptimizationSuggestion :=
  [ { type := .headline
      priority := .medium
      title := "Test Different Headline Approaches"
      description := "Try question-based, benefit-focused, and urgency-driven headlines"
      impact := "Discover what resonates with your audience"
      confidence := 65
      basedOn := "Industry best practices" },
    { type := .tone
      priority := .medium
      title := "Experiment with Tone Variations"
      description := "Test professional, casual, and urgent tones to find your optimal voice"
      impact := "Different tones can improve engagement by 15-30%"
      confidence := 70
      basedOn := "Marketing research" },
    { type := .description
      priority := .low
      title := "Include Clear Call-to-Actions"
      description := "Add specific actions like \"Call Now\", \"Learn More\", or \"Get Quote\""
      impact := "Clear CTAs can increase click-through rates"
      confidence := 75
      basedOn := "Advertising best practices" } ]

/-- Rank of a priority in the final comparator: `high` first, the rest tied. -/
def prioRank (s : OptimizationSuggestion) : Nat :=
  match s.priority with
  | .high => 0
  | _ => 1

/-- The total preorder induced by the final sort's comparator:
`a` may come before `b`. -/
def suggLE (a b : OptimizationSuggestion) : Prop :=
  prioRank a < prioRank b ∨ (prioRank a = prioRank b ∧ b.confidence ≤ a.confidence)

instance : DecidableRel suggLE := fun _ _ => inferInstanceAs (Decidable (_ ∨ _))

instance : IsTotal OptimizationSuggestion suggLE := by
  constructor
  intro a b
  rcases Nat.lt_trichotomy (prioRank a) (prioRank b) with h | h | h
  · exact Or.inl (Or.inl h)
  · rcases le_total b.confidence a.confidence with hc | hc
    · exact Or.inl (Or.inr ⟨h, hc⟩)
    · exact Or.inr (Or.inr ⟨h.symm, hc⟩)
  · exact Or.inr (Or.inl h)

instance : IsTrans OptimizationSuggestion suggLE := by
  constructor
  rintro a b c (h1 | ⟨h1, h1'⟩) (h2 | ⟨h2, h2'⟩)
  · exact Or.inl (h1.trans h2)
  · exact Or.inl (h2 ▸ h1)
  · exact Or.inl (h1 ▸ h2)
  · exact Or.inr ⟨h1.trans h2, h2'.trans h1'⟩

/-- The final ranking sort (JavaScript `Array.prototype.sort` is stable, and
the comparator induces the total preorder `suggLE`; a stable insertion sort
realises exactly that). -/
def sortSuggestions (l : List OptimizationSuggestion) : List OptimizationSuggestion :=
  List.insertionSort suggLE l

/-- The pure body of `getOptimizationSuggestions`, applied to the loaded ad
list (`now` is the clock reading used by the volume analyzer). -/
def computeSuggestions (now : Int) (ads : List GeneratedAd) : List OptimizationSuggestion :=
  if ads.length < 3 then getBasicSuggestions
  else
    let performanceAds := ads.filter (·.performance.isSome)
    let analyzed :=
      if 0 < performanceAds.length then
        analyzeHeadlinePerformance performanceAds
          ++ analyzeTonePerformance performanceAds
          ++ analyzeLengthPerformance performanceAds
          ++ analyzeKeywordPerformance performanceAds
      else []
    sortSuggestions (analyzed ++ analyzeVolumePatterns now ads)

/-- `getOptimizationSuggestions` on a loaded ad list. -/
def getOptimizationSuggestions (now : Int) (ads : List GeneratedAd) :
    List OptimizationSuggestion :=
  computeSuggestions now ads

/-- The ad store, as the engine sees it: the per-user ad lists in insertion
order (`storage.getGeneratedAds` iterates an id-keyed `Map` filtered by user). -/
def Store : Type := Nat → List GeneratedAd

/-- `storage.getGeneratedAds(userId)`: a read; the store is unchanged. -/
def getGeneratedAds (s : Store) (userId : Nat) : List GeneratedAd × Store :=
  (s userId, s)

/-- The full method `AdOptimizer.getOptimizationSuggestions(userId)`: load the
user's ads, compute, return, threading the store state. -/
def getOptimizationSuggestionsM (userId : Nat) (now : Int) (s : Store) :
    List OptimizationSuggestion × Store :=
  let (ads, s') := getGeneratedAds s userId
  (computeSuggestions now ads, s')

/-! ### The grouping folds, characterised

`extractHeadlinePatterns` and the tone analyzer's fold are instances of one
shape: ads carrying a signal (`Option ℚ`) bump a per-key `{total, count,
avgCtr}` accumulator in an insertion-ordered map.  `lookupL_foldl_accStep`
computes the final entry of a key from the plain list of that key's signal
values. -/

/-- One bump of a `{ total, count, avgCtr }` accumulator by a ctr value. -/
def accBump (c : ℚ) (e : CtrAcc) : CtrAcc :=
  ⟨radd e.total c, e.count + 1, rdivN (radd e.total c) (e.count + 1)⟩

/-- The common fold step: if `g a` yields a signal, bump the entry of
`keyOf a`, else skip. -/
def accStep {α : Type} (keyOf : α → String) (g : α → Option ℚ)
    (m : List (String × CtrAcc)) (a : α) : List (String × CtrAcc) :=
  match g a with
  | some c => setL (keyOf a) (accBump c ((lookupL (keyOf a) m).getD ⟨0, 0, 0⟩)) m
  | none => m

/-- The signal values of key `k` in `l`, in order. -/
def groupCtrs {α : Type} (keyOf : α → String) (g : α → Option ℚ) (k : String)
    (l : List α) : List ℚ :=
  l.filterMap (fun a =>
    match g a with
    | some c => if keyOf a = k then some c else none
    | none => none)

/-- The signal of the headline-pattern fold: a present, nonzero `ctr`. -/
def ctrSignal (ad : GeneratedAd) : Option ℚ :=
  match perfCtr ad with
  | some c => if c ≠ 0 then some c else none
  | none => none

/-- The tone fold's key: the tone label. -/
def toneKey (ad : GeneratedAd) : String := ad.tone.getD ""

/-- The signal of the tone fold: a truthy tone and a present, nonzero `ctr`. -/
def toneSignal (ad : GeneratedAd) : Option ℚ :=
  if truthyTone ad then ctrSignal ad else none

theorem patternStep_eq : patternStep = accStep patternOf ctrSignal := by
  funext m ad
  unfold patternStep accStep ctrSignal accBump
  cases perfCtr ad with
  | none => rfl
  | some c => by_cases hc : c = 0 <;> simp [hc]

theorem toneStep_eq : toneStep = accStep toneKey toneSignal := by
  funext m ad
  unfold toneStep accStep toneSignal ctrSignal accBump toneKey
  by_cases ht : truthyTone ad
  · cases perfCtr ad with
    | none => simp [ht]
    | some c => by_cases hc : c = 0 <;> simp [ht, hc]
  · cases perfCtr ad with
    | none => simp [ht]
    | some c => by_cases hc : c = 0 <;> simp [ht, hc]

theorem lookupL_foldl_accStep {α : Type} (keyOf : α → String) (g : α → Option ℚ)
    (k : String) (l : List α) : ∀ m : List (String × CtrAcc),
    lookupL k (l.foldl (accStep keyOf g) m) =
      if groupCtrs keyOf g k l = [] then lookupL k m
      else some ((groupCtrs keyOf g k l).foldl (fun e c => accBump c e)
        ((lookupL k m).getD ⟨0, 0, 0⟩)) := by
  induction l with
  | nil => intro m; simp [groupCtrs]
  | cons a t ih =>
    intro m
    rw [List.foldl_cons, ih]
    cases hg : g a with
    | none =>
      have hstep : accStep keyOf g m a = m := by simp [accStep, hg]
      have hgrp : groupCtrs keyOf g k (a :: t) = groupCtrs keyOf g k t := by
        simp [groupCtrs, List.filterMap_cons, hg]
      rw [hstep, hgrp]
    | some c =>
      by_cases hk : keyOf a = k
      · have hstep : lookupL k (accStep keyOf g m a) =
            some (accBump c ((lookupL k m).getD ⟨0, 0, 0⟩)) := by
          simp [accStep, hg, hk, lookupL_setL_same]
        have hgrp : groupCtrs keyOf g k (a :: t) = c :: groupCtrs keyOf g k t := by
          simp [groupCtrs, List.filterMap_cons, hg, hk]
        rw [hgrp]
        by_cases he : groupCtrs keyOf g k t = []
        · simp [he, hstep]
        · simp [he, hstep]
      · have hstep : lookupL k (accStep keyOf g m a) = lookupL k m := by
          rw [accStep, hg]
          exact lookupL_setL_ne hk _ m
        have hgrp : groupCtrs keyOf g k (a :: t) = groupCtrs keyOf g k t := by
          simp [groupCtrs, List.filterMap_cons, hg, hk]
        rw [hgrp, hstep]

theorem foldl_accBump (l : List ℚ) : ∀ (s : ℚ) (n : Nat) (x : ℚ), l ≠ [] →
    l.foldl (fun e c => accBump c e) ⟨s, n, x⟩ =
      ⟨s + l.sum, n + l.length, (s + l.sum) / ((n : ℚ) + (l.length : ℚ))⟩ := by
  induction l with
  | nil => intro _ _ _ h; exact absurd rfl h
  | cons c t ih =>
    intro s n x _
    rw [List.foldl_cons]
    have hb : accBump c ⟨s, n, x⟩ = ⟨s + c, n + 1, (s + c) / (((n + 1 : ℕ) : ℚ))⟩ := by
      simp [accBump, radd_eq, rdivN_eq]
    rcases eq_or_ne t [] with rfl | ht
    · rw [hb]
      simp only [List.foldl_nil, List.sum_cons, List.sum_nil, List.length_cons,
        List.length_nil, add_zero]
      congr 1
      push_cast
      ring
    · rw [hb, ih _ _ _ ht]
      simp only [List.sum_cons, List.length_cons]
      congr 1
      · ring
      · omega
      · push_cast
        ring_nf

/-- The final map entry of key `k`: sum, size and mean of the key's signals. -/
theorem lookupL_accFold {α : Type} (keyOf : α → String) (g : α → Option ℚ)
    (k : String) (l : List α) (h : groupCtrs keyOf g k l ≠ []) :
    lookupL k (l.foldl (accStep keyOf g) []) =
      some ⟨(groupCtrs keyOf g k l).sum, (groupCtrs keyOf g k l).length,
        (groupCtrs keyOf g k l).sum / ((groupCtrs keyOf g k l).length : ℚ)⟩ := by
  rw [lookupL_foldl_accStep, if_neg h]
  show some ((groupCtrs keyOf g k l).foldl (fun e c => accBump c e) ⟨0, 0, 0⟩) = _
  rw [foldl_accBump _ _ _ _ h]
  simp

theorem keysL_nodup_setL {β : Type} (k : String) (v : β) {m : List (String × β)}
    (h : (keysL m).Nodup) : (keysL (setL k v m)).Nodup := by
  rw [keysL_setL]
  by_cases hk : k ∈ keysL m
  · simpa [hk] using h
  · simp only [hk, if_false]
    exact List.Nodup.append h (List.nodup_singleton k) (by simpa using hk)

theorem keysL_nodup_foldl_accStep {α : Type} (keyOf : α → String) (g : α → Option ℚ)
    (l : List α) : ∀ m : List (String × CtrAcc), (keysL m).Nodup →
    (keysL (l.foldl (accStep keyOf g) m)).Nodup := by
  induction l with
  | nil => intro m h; exact h
  | cons a t ih =>
    intro m h
    rw [List.foldl_cons]
    refine ih _ ?_
    cases hg : g a with
    | none => simpa [accStep, hg] using h
    | some c =>
      rw [accStep, hg]
      exact keysL_nodup_setL _ _ h

/-- Membership in the folded map, for keys with at least one signal. -/
theorem mem_accFold_iff {α : Type} (keyOf : α → String) (g : α → Option ℚ)
    (l : List α) (k : String) (acc : CtrAcc) :
    (k, acc) ∈ l.foldl (accStep keyOf g) [] ↔
      (groupCtrs keyOf g k l ≠ [] ∧
        acc = ⟨(groupCtrs keyOf g k l).sum, (groupCtrs keyOf g k l).length,
          (groupCtrs keyOf g k l).sum / ((groupCtrs keyOf g k l).length : ℚ)⟩) := by
  constructor
  · intro hmem
    have hnd : (keysL (l.foldl (accStep keyOf g) [])).Nodup :=
      keysL_nodup_foldl_accStep keyOf g l [] (by simp [keysL])
    have hlk := lookupL_of_mem hnd hmem
    have hne : groupCtrs keyOf g k l ≠ [] := by
      intro hnil
      rw [lookupL_foldl_accStep, if_pos hnil] at hlk
      simp [lookupL] at hlk
    refine ⟨hne, ?_⟩
    rw [lookupL_accFold keyOf g k l hne] at hlk
    exact (Option.some.injEq .. ▸ hlk).symm
  · rintro ⟨hne, rfl⟩
    exact mem_of_lookupL (lookupL_accFold keyOf g k l hne)

/-! ### Sorting lemmas: head of the sort is a maximum; stability -/

theorem head_insertionSort_max {γ : Type} (r : γ → γ → Prop) [DecidableRel r]
    [IsTotal γ r] [IsTrans γ r] {l : List γ} {x : γ}
    (hx : (List.insertionSort r l).head? = some x) : x ∈ l ∧ ∀ y ∈ l, r x y := by
  rcases hs : List.insertionSort r l with _ | ⟨a, t⟩
  · rw [hs] at hx
    simp at hx
  · rw [hs] at hx
    have hax : a = x := by simpa using hx
    subst hax
    have hperm := List.perm_insertionSort r l
    rw [hs] at hperm
    have hsorted := List.sorted_insertionSort r l
    rw [hs] at hsorted
    constructor
    · exact hperm.subset (List.mem_cons_self _ _)
    · intro y hy
      rcases List.mem_cons.mp (hperm.mem_iff.mpr hy) with rfl | hyt
      · rcases total_of r y y with h | h <;> exact h
      · exact List.rel_of_sorted_cons hsorted y hyt

theorem head?_take_three {γ : Type} (l : List γ) : (l.take 3).head? = l.head? := by
  cases l <;> rfl

/-- `insertionSort` produces the empty list only on the empty list. -/
theorem insertionSort_eq_nil_iff {γ : Type} (r : γ → γ → Prop) [DecidableRel r]
    (l : List γ) : List.insertionSort r l = [] ↔ l = [] := by
  constructor
  · intro h
    have := List.perm_insertionSort r l
    rw [h] at this
    exact this.symm.eq_nil
  · rintro rfl
    rfl

/-- Inserting an element the class `p` rejects does not change the class. -/
theorem filter_orderedInsert_neg {γ : Type} (r : γ → γ → Prop) [DecidableRel r]
    (p : γ → Bool) (x : γ) (hx : p x = false) (l : List γ) :
    (List.orderedInsert r x l).filter p = l.filter p := by
  induction l with
  | nil => simp [List.orderedInsert, hx]
  | cons b t ih =>
    rw [List.orderedInsert]
    by_cases hr : r x b
    · rw [if_pos hr]
      simp [List.filter_cons, hx]
    · rw [if_neg hr]
      by_cases hb : p b <;> simp [List.filter_cons, hb, ih]

/-- Inserting an element of the class `p`, all of whose members are mutual
ties of it, puts it in front of the class. -/
theorem filter_orderedInsert_tie {γ : Type} (r : γ → γ → Prop) [DecidableRel r]
    (p : γ → Bool) (x : γ) (hx : p x = true)
    (hties : ∀ y, p y = true → r x y) (l : List γ) :
    (List.orderedInsert r x l).filter p = x :: l.filter p := by
  induction l with
  | nil => simp [List.orderedInsert, hx]
  | cons b t ih =>
    rw [List.orderedInsert]
    by_cases hr : r x b
    · rw [if_pos hr]
      simp [List.filter_cons, hx]
    · rw [if_neg hr]
      have hb : p b = false := by
        rcases hpb : p b with _ | _
        · rfl
        · exact absurd (hties b hpb) hr
      simp [List.filter_cons, hb, ih]

/-- Stability of the ranking sort: a class of mutually tied elements keeps
its input order. -/
theorem filter_insertionSort_tie {γ : Type} (r : γ → γ → Prop) [DecidableRel r]
    (p : γ → Bool) (hties : ∀ y z, p y = true → p z = true → r y z) (l : List γ) :
    (List.insertionSort r l).filter p = l.filter p := by
  induction l with
  | nil => rfl
  | cons a t ih =>
    rw [List.insertionSort]
    by_cases ha : p a
    · rw [filter_orderedInsert_tie r p a ha (fun y hy => hties a y ha hy)]
      simp [List.filter_cons, ha, ih]
    · rw [filter_orderedInsert_neg r p a (by simpa using ha)]
      simp [List.filter_cons, ha, ih]

/-! ### Spec-side vocabulary and the emit characterisation of the grouped
analyzers -/

/-- Arithmetic mean, spec-side. -/
def meanQ (l : List ℚ) : ℚ := l.sum / l.length

/-- The CTR values of the headline-pattern group of key `k`: ads with a
present, nonzero CTR whose headline's first-three-words key is `k`. -/
def headlineGroup (ads : List GeneratedAd) (k : String) : List ℚ :=
  groupCtrs patternOf ctrSignal k ads

/-- The CTR values of the tone group of label `t`: ads with a truthy tone `t`
and a present, nonzero CTR. -/
def toneGroup (ads : List GeneratedAd) (t : String) : List ℚ :=
  groupCtrs toneKey toneSignal t ads

theorem bestGroup_none {α : Type} (keyOf : α → String) (g : α → Option ℚ)
    (ads : List α)
    (h : (List.insertionSort accGE
        ((ads.foldl (accStep keyOf g) []).filter (fun e => 2 ≤ e.2.count))).head? = none) :
    ∀ k, (groupCtrs keyOf g k ads).length < 2 := by
  intro k
  by_contra hk
  push_neg at hk
  have hne : groupCtrs keyOf g k ads ≠ [] := by
    intro hnil
    rw [hnil] at hk
    simp at hk
  have hmem : (k, (⟨(groupCtrs keyOf g k ads).sum, (groupCtrs keyOf g k ads).length,
      (groupCtrs keyOf g k ads).sum / ((groupCtrs keyOf g k ads).length : ℚ)⟩ : CtrAcc)) ∈
      ads.foldl (accStep keyOf g) [] :=
    (mem_accFold_iff keyOf g ads k _).mpr ⟨hne, rfl⟩
  have hmemf : (k, (⟨(groupCtrs keyOf g k ads).sum, (groupCtrs keyOf g k ads).length,
      (groupCtrs keyOf g k ads).sum / ((groupCtrs keyOf g k ads).length : ℚ)⟩ : CtrAcc)) ∈
      (ads.foldl (accStep keyOf g) []).filter (fun e => 2 ≤ e.2.count) := by
    rw [List.mem_filter]
    exact ⟨hmem, by simpa using hk⟩
  rw [List.head?_eq_none_iff, insertionSort_eq_nil_iff] at h
  rw [h] at hmemf
  simp at hmemf

theorem bestGroup_some {α : Type} (keyOf : α → String) (g : α → Option ℚ)
    (ads : List α) (top : String × CtrAcc)
    (h : (List.insertionSort accGE
        ((ads.foldl (accStep keyOf g) []).filter (fun e => 2 ≤ e.2.count))).head? = some top) :
    2 ≤ (groupCtrs keyOf g top.1 ads).length ∧
      top.2.avgCtr = meanQ (groupCtrs keyOf g top.1 ads) ∧
      ∀ k, 2 ≤ (groupCtrs keyOf g k ads).length →
        meanQ (groupCtrs keyOf g k ads) ≤ top.2.avgCtr := by
  obtain ⟨hmem, hmax⟩ := head_insertionSort_max accGE h
  rw [List.mem_filter] at hmem
  obtain ⟨hin, hcnt⟩ := hmem
  have hchar := (mem_accFold_iff keyOf g ads top.1 top.2).mp hin
  obtain ⟨hne, hacc⟩ := hchar
  have hcount : top.2.count = (groupCtrs keyOf g top.1 ads).length := by
    rw [hacc]
  have havg : top.2.avgCtr = meanQ (groupCtrs keyOf g top.1 ads) := by
    rw [hacc, meanQ]
  refine ⟨by rw [← hcount]; simpa using hcnt, havg, ?_⟩
  intro k hk
  have hkne : groupCtrs keyOf g k ads ≠ [] := by
    intro hnil
    rw [hnil] at hk
    simp at hk
  have hkmem : (k, (⟨(groupCtrs keyOf g k ads).sum, (groupCtrs keyOf g k ads).length,
      (groupCtrs keyOf g k ads).sum / ((groupCtrs keyOf g k ads).length : ℚ)⟩ : CtrAcc)) ∈
      (ads.foldl (accStep keyOf g) []).filter (fun e => 2 ≤ e.2.count) := by
    rw [List.mem_filter]
    exact ⟨(mem_accFold_iff keyOf g ads k _).mpr ⟨hkne, rfl⟩, by simpa using hk⟩
  have := hmax _ hkmem
  rw [accGE] at this
  simpa [meanQ] using this

/-- The headline analyzer, expressed through the group means:
the positive direction. -/
theorem analyzeHeadline_emits (ads : List GeneratedAd)
    (h : ∃ k, 2 ≤ (headlineGroup ads k).length ∧
      ctrThreshold < meanQ (headlineGroup ads k)) :
    ∃ top, analyzeHeadlinePerformance ads = [mkHeadlineSugg top] := by
  obtain ⟨k, hk2, hkth⟩ := h
  rw [headlineGroup] at hk2 hkth
  simp only [analyzeHeadlinePerformance, extractHeadlinePatterns, patternStep_eq,
    head?_take_three]
  cases hbest : (List.insertionSort accGE
      ((ads.foldl (accStep patternOf ctrSignal) []).filter (fun e => 2 ≤ e.2.count))).head? with
  | none =>
    exact absurd hk2 (by simpa using bestGroup_none patternOf ctrSignal ads hbest k)
  | some top =>
    obtain ⟨_, havg, hmax⟩ := bestGroup_some patternOf ctrSignal ads top hbest
    have hlt : ctrThreshold < top.2.avgCtr := lt_of_lt_of_le hkth (hmax k hk2)
    refine ⟨top, ?_⟩
    show (if ctrThreshold < top.2.avgCtr then [mkHeadlineSugg top] else []) = _
    rw [if_pos hlt]

/-- The headline analyzer, negative direction: no qualifying group beats the
threshold, no suggestion. -/
theorem analyzeHeadline_silent (ads : List GeneratedAd)
    (h : ∀ k, 2 ≤ (headlineGroup ads k).length →
      meanQ (headlineGroup ads k) ≤ ctrThreshold) :
    analyzeHeadlinePerformance ads = [] := by
  simp only [headlineGroup] at h
  simp only [analyzeHeadlinePerformance, extractHeadlinePatterns, patternStep_eq,
    head?_take_three]
  cases hbest : (List.insertionSort accGE
      ((ads.foldl (accStep patternOf ctrSignal) []).filter (fun e => 2 ≤ e.2.count))).head? with
  | none => rfl
  | some top =>
    obtain ⟨h2, havg, _⟩ := bestGroup_some patternOf ctrSignal ads top hbest
    have hle : ¬ ctrThreshold < top.2.avgCtr := by
      rw [havg]
      exact not_lt.mpr (h top.1 h2)
    show (if ctrThreshold < top.2.avgCtr then [mkHeadlineSugg top] else []) = _
    rw [if_neg hle]

/-- The tone analyzer, positive direction. -/
theorem analyzeTone_emits (ads : List GeneratedAd)
    (h : ∃ t, 2 ≤ (toneGroup ads t).length ∧ ctrThreshold < meanQ (toneGroup ads t)) :
    ∃ top, analyzeTonePerformance ads = [mkToneSugg top] := by
  obtain ⟨k, hk2, hkth⟩ := h
  rw [toneGroup] at hk2 hkth
  simp only [analyzeTonePerformance, toneStep_eq]
  cases hbest : (List.insertionSort accGE
      ((ads.foldl (accStep toneKey toneSignal) []).filter (fun e => 2 ≤ e.2.count))).head? with
  | none =>
    exact absurd hk2 (by simpa using bestGroup_none toneKey toneSignal ads hbest k)
  | some top =>
    obtain ⟨_, havg, hmax⟩ := bestGroup_some toneKey toneSignal ads top hbest
    have hlt : ctrThreshold < top.2.avgCtr := lt_of_lt_of_le hkth (hmax k hk2)
    refine ⟨top, ?_⟩
    show (if ctrThreshold < top.2.avgCtr then [mkToneSugg top] else []) = _
    rw [if_pos hlt]

/-- The tone analyzer, negative direction. -/
theorem analyzeTone_silent (ads : List GeneratedAd)
    (h : ∀ t, 2 ≤ (toneGroup ads t).length → meanQ (toneGroup ads t) ≤ ctrThreshold) :
    analyzeTonePerformance ads = [] := by
  simp only [toneGroup] at h
  simp only [analyzeTonePerformance, toneStep_eq]
  cases hbest : (List.insertionSort accGE
      ((ads.foldl (accStep toneKey toneSignal) []).filter (fun e => 2 ≤ e.2.count))).head? with
  | none => rfl
  | some top =>
    obtain ⟨h2, havg, _⟩ := bestGroup_some toneKey toneSignal ads top hbest
    have hle : ¬ ctrThreshold < top.2.avgCtr := by
      rw [havg]
      exact not_lt.mpr (h top.1 h2)
    show (if ctrThreshold < top.2.avgCtr then [mkToneSugg top] else []) = _
    rw [if_neg hle]

/-! ### Shape of each analyzer's output: nothing, or exactly one suggestion -/

theorem analyzeHeadline_shape (ads : List GeneratedAd) :
    analyzeHeadlinePerformance ads = [] ∨
      ∃ e, analyzeHeadlinePerformance ads = [mkHeadlineSugg e] := by
  simp only [analyzeHeadlinePerformance]
  cases htop : ((List.insertionSort accGE (extractHeadlinePatterns ads)).take 3).head? with
  | none => exact Or.inl rfl
  | some top =>
    by_cases hth : ctrThreshold < top.2.avgCtr
    · exact Or.inr ⟨top, by
        show (if ctrThreshold < top.2.avgCtr then [mkHeadlineSugg top] else []) = _
        rw [if_pos hth]⟩
    · exact Or.inl (by
        show (if ctrThreshold < top.2.avgCtr then [mkHeadlineSugg top] else []) = _
        rw [if_neg hth])

theorem analyzeTone_shape (ads : List GeneratedAd) :
    analyzeTonePerformance ads = [] ∨
      ∃ e, analyzeTonePerformance ads = [mkToneSugg e] := by
  simp only [analyzeTonePerformance]
  cases htop : (List.insertionSort accGE
      ((ads.foldl toneStep []).filter (fun e => 2 ≤ e.2.count))).head? with
  | none => exact Or.inl rfl
  | some top =>
    by_cases hth : ctrThreshold < top.2.avgCtr
    · exact Or.inr ⟨top, by
        show (if ctrThreshold < top.2.avgCtr then [mkToneSugg top] else []) = _
        rw [if_pos hth]⟩
    · exact Or.inl (by
        show (if ctrThreshold < top.2.avgCtr then [mkToneSugg top] else []) = _
        rw [if_neg hth])

theorem findOptimalLength_confidence (d : List LengthDatum) :
    (findOptimalLength d).confidence = mkRat 3 4 := by
  simp [findOptimalLength]

/-- The length analyzer: silent below 5 rows, else exactly the one suggestion
built by `findOptimalLength` (whose hard-coded confidence always clears 0.7). -/
theorem analyzeLength_char (ads : List GeneratedAd) :
    ((lengthData ads).length < 5 → analyzeLengthPerformance ads = []) ∧
      (5 ≤ (lengthData ads).length → analyzeLengthPerformance ads =
        [mkLengthSugg (findOptimalLength (lengthData ads)) (lengthData ads).length]) := by
  constructor
  · intro h
    simp only [analyzeLengthPerformance]
    rw [if_neg (by omega)]
  · intro h
    simp only [analyzeLengthPerformance]
    rw [if_pos h, if_pos (show mkRat 7 10 < (findOptimalLength (lengthData ads)).confidence by
      rw [findOptimalLength_confidence]
      decide)]

theorem analyzeLength_shape (ads : List GeneratedAd) :
    analyzeLengthPerformance ads = [] ∨
      analyzeLengthPerformance ads =
        [mkLengthSugg (findOptimalLength (lengthData ads)) (lengthData ads).length] := by
  rcases lt_or_le (lengthData ads).length 5 with h | h
  · exact Or.inl ((analyzeLength_char ads).1 h)
  · exact Or.inr ((analyzeLength_char ads).2 h)

theorem analyzeKeyword_shape (ads : List GeneratedAd) :
    analyzeKeywordPerformance ads = [] ∨
      ∃ ws n, analyzeKeywordPerformance ads = [mkKeywordSugg ws n] := by
  simp only [analyzeKeywordPerformance]
  by_cases h3 : 3 ≤ ((ads.filter keywordQualifies).take 10).length
  · rw [if_pos h3]
    by_cases hw : (extractCommonWords ((ads.filter keywordQualifies).take 10)).isEmpty
    · rw [if_pos hw]
      exact Or.inl rfl
    · rw [if_neg hw]
      exact Or.inr ⟨_, _, rfl⟩
  · rw [if_neg h3]
    exact Or.inl rfl

theorem analyzeVolume_shape (now : Int) (ads : List GeneratedAd) :
    analyzeVolumePatterns now ads = [] ∨ analyzeVolumePatterns now ads = [volumeSuggestion] := by
  simp only [analyzeVolumePatterns]
  by_cases h : (ads.filter (isRecent now)).length < 5
  · rw [if_pos h]
    exact Or.inr rfl
  · rw [if_neg h]
    exact Or.inl rfl

/-! ### Helpers: ignored elements, filter algebra -/

theorem foldl_eq_foldl_filter {α β : Type} (f : β → α → β) (p : α → Bool)
    (h : ∀ b a, p a = false → f b a = b) (l : List α) : ∀ b : β,
    l.foldl f b = (l.filter p).foldl f b := by
  induction l with
  | nil => intro b; rfl
  | cons a t ih =>
    intro b
    rw [List.foldl_cons, List.filter_cons]
    by_cases hp : p a
    · rw [if_pos hp, List.foldl_cons, ih]
    · rw [if_neg hp, h b a (by simpa using hp), ih]

theorem filter_idem {α : Type} (p : α → Bool) (l : List α) :
    (l.filter p).filter p = l.filter p := by
  rw [List.filter_filter]
  simp

/-! ### Malformed-performance robustness: each analyzer only sees its own
qualifying ads -/

theorem patternStep_skip (m : List (String × CtrAcc)) (ad : GeneratedAd)
    (h : truthyCtr ad = false) : patternStep m ad = m := by
  rw [patternStep]
  cases hg : perfCtr ad with
  | none => rfl
  | some c =>
    rw [truthyCtr, hg] at h
    simp only [decide_eq_false_iff_not, Decidable.not_not] at h
    simp [h]

theorem toneStep_skip (m : List (String × CtrAcc)) (ad : GeneratedAd)
    (h : (truthyTone ad && truthyCtr ad) = false) : toneStep m ad = m := by
  rw [toneStep]
  by_cases ht : truthyTone ad
  · rw [if_pos ht]
    rw [ht, Bool.true_and] at h
    cases hg : perfCtr ad with
    | none => rfl
    | some c =>
      rw [truthyCtr, hg] at h
      simp only [decide_eq_false_iff_not, Decidable.not_not] at h
      simp [h]
  · rw [if_neg ht]

theorem analyzeHeadline_ignores (ads : List GeneratedAd) :
    analyzeHeadlinePerformance ads = analyzeHeadlinePerformance (ads.filter truthyCtr) := by
  have hfold : ads.foldl patternStep [] = (ads.filter truthyCtr).foldl patternStep [] :=
    foldl_eq_foldl_filter patternStep truthyCtr (fun m ad h => patternStep_skip m ad h) ads []
  simp only [analyzeHeadlinePerformance, extractHeadlinePatterns, hfold]

theorem analyzeTone_ignores (ads : List GeneratedAd) :
    analyzeTonePerformance ads =
      analyzeTonePerformance (ads.filter (fun ad => truthyTone ad && truthyCtr ad)) := by
  have hfold : ads.foldl toneStep [] =
      (ads.filter (fun ad => truthyTone ad && truthyCtr ad)).foldl toneStep [] :=
    foldl_eq_foldl_filter toneStep _ (fun m ad h => toneStep_skip m ad h) ads []
  simp only [analyzeTonePerformance, hfold]

/-- The test that keeps an ad in the length analyzer's sample. -/
def lengthQualifies (ad : GeneratedAd) : Bool :=
  ad.performance.isSome && decide (0 < (perfCtr ad).getD 0)

theorem lengthData_eq (ads : List GeneratedAd) :
    lengthData ads = (ads.filter lengthQualifies).map
      (fun ad => LengthDatum.mk ad.headline.length ad.description.length ((perfCtr ad).getD 0)) := by
  rw [lengthData, List.filter_map]
  congr 1
  rw [List.filter_filter]
  refine List.filter_congr ?_
  intro a _
  simp only [Function.comp, lengthQualifies]
  exact Bool.and_comm _ _

theorem analyzeLength_ignores (ads : List GeneratedAd) :
    analyzeLengthPerformance ads = analyzeLengthPerformance (ads.filter lengthQualifies) := by
  have hd : lengthData ads = lengthData (ads.filter lengthQualifies) := by
    rw [lengthData_eq, lengthData_eq, filter_idem]
  simp only [analyzeLengthPerformance, hd]

theorem analyzeKeyword_ignores (ads : List GeneratedAd) :
    analyzeKeywordPerformance ads = analyzeKeywordPerformance (ads.filter keywordQualifies) := by
  simp only [analyzeKeywordPerformance, filter_idem]

/-! ### The word-count fold, characterised

The keyword analyzer's `Map` of token counts is, in iteration order, the
distinct tokens in first-occurrence order, each paired with its number of
occurrences. -/

/-- The distinct elements of a list in first-occurrence order, skipping a
`seen` set. -/
def firstOccAux (seen : List String) : List String → List String
  | [] => []
  | w :: l => if w ∈ seen then firstOccAux seen l else w :: firstOccAux (w :: seen) l

/-- The distinct elements of a list, in first-occurrence order. -/
def firstOcc (l : List String) : List String := firstOccAux [] l

theorem mem_firstOccAux_not_seen {u : String} : ∀ {seen ts : List String},
    u ∈ firstOccAux seen ts → u ∉ seen := by
  intro seen ts
  induction ts generalizing seen with
  | nil => intro h; simp [firstOccAux] at h
  | cons w l ih =>
    intro h
    rw [firstOccAux] at h
    by_cases hw : w ∈ seen
    · rw [if_pos hw] at h
      exact ih h
    · rw [if_neg hw] at h
      rcases List.mem_cons.mp h with rfl | h
      · exact hw
      · intro hu
        exact ih h (List.mem_cons_of_mem _ hu)

theorem firstOccAux_sub {u : String} : ∀ {seen ts : List String},
    u ∈ firstOccAux seen ts → u ∈ ts := by
  intro seen ts
  induction ts generalizing seen with
  | nil => intro h; simp [firstOccAux] at h
  | cons w l ih =>
    intro h
    rw [firstOccAux] at h
    by_cases hw : w ∈ seen
    · rw [if_pos hw] at h
      exact List.mem_cons_of_mem _ (ih h)
    · rw [if_neg hw] at h
      rcases List.mem_cons.mp h with rfl | h
      · exact List.mem_cons_self _ _
      · exact List.mem_cons_of_mem _ (ih h)

theorem firstOccAux_congr : ∀ (ts : List String) {s₁ s₂ : List String},
    (∀ u, u ∈ s₁ ↔ u ∈ s₂) → firstOccAux s₁ ts = firstOccAux s₂ ts := by
  intro ts
  induction ts with
  | nil => intro s₁ s₂ _; rfl
  | cons w l ih =>
    intro s₁ s₂ h
    rw [firstOccAux, firstOccAux]
    by_cases hw : w ∈ s₁
    · rw [if_pos hw, if_pos ((h w).mp hw)]
      exact ih h
    · rw [if_neg hw, if_neg (fun hc => hw ((h w).mpr hc))]
      refine congrArg (w :: ·) (ih ?_)
      intro u
      simp [List.mem_cons, h u]

theorem setL_absent {β : Type} {w : String} (v : β) : ∀ {m : List (String × β)},
    w ∉ keysL m → setL w v m = m ++ [(w, v)] := by
  intro m
  induction m with
  | nil => intro _; rfl
  | cons e m ih =>
    obtain ⟨k₀, v₀⟩ := e
    intro h
    have hk : k₀ ≠ w := by
      intro hc
      exact h (by simp [keysL, hc])
    rw [setL, if_neg hk, ih (fun hc => h (by simp [keysL] at hc ⊢; exact Or.inr hc))]
    rfl

theorem setL_present_map {β : Type} {w : String} (v : β) : ∀ {m : List (String × β)},
    (keysL m).Nodup → w ∈ keysL m →
    setL w v m = m.map (fun e => if e.1 = w then (w, v) else e) := by
  intro m
  induction m with
  | nil => intro _ h; simp [keysL] at h
  | cons e m ih =>
    obtain ⟨k₀, v₀⟩ := e
    intro hnd hw
    simp only [keysL, List.map_cons, List.nodup_cons] at hnd
    by_cases hk : k₀ = w
    · subst hk
      rw [setL, if_pos rfl, List.map_cons, if_pos rfl]
      refine congrArg _ ?_
      have hm : ∀ e ∈ m, (if (e : String × β).1 = k₀ then (k₀, v) else e) = e := by
        intro e he
        rw [if_neg]
        intro hc
        exact hnd.1 (hc ▸ List.mem_map_of_mem Prod.fst he)
      rw [List.map_congr_left hm, List.map_id']
    · have hw' : w ∈ keysL m := by
        rcases (by simpa [keysL] using hw : w = k₀ ∨ w ∈ keysL m) with rfl | h
        · exact absurd rfl hk
        · exact h
      rw [setL, if_neg hk, List.map_cons, if_neg hk, ih hnd.2 hw']

theorem keysL_map_overwrite {β : Type} (w : String) (v : β) (m : List (String × β)) :
    keysL (m.map (fun e => if e.1 = w then (w, v) else e)) = keysL m := by
  rw [keysL, keysL, List.map_map]
  refine List.map_congr_left ?_
  intro e _
  by_cases h : e.1 = w <;> simp [Function.comp, h]

/-- The word-count fold: existing keys are bumped in place by their number of
occurrences, new keys are appended in first-occurrence order. -/
theorem foldl_wordStep (ts : List String) : ∀ m : List (String × Nat), (keysL m).Nodup →
    ts.foldl wordStep m =
      m.map (fun e => (e.1, e.2 + ts.count e.1)) ++
        (firstOccAux (keysL m) ts).map (fun w => (w, ts.count w)) := by
  induction ts with
  | nil =>
    intro m _
    have hm : m.map (fun e => ((e : String × Nat).1, e.2 + List.count e.1 [])) = m := by
      refine (List.map_congr_left ?_).trans (List.map_id' m)
      intro e _
      simp
    simp [firstOccAux, hm]
  | cons w ts ih =>
    intro m hnd
    rw [List.foldl_cons]
    by_cases hw : w ∈ keysL m
    · obtain ⟨c, hc⟩ : ∃ c, lookupL w m = some c := by
        cases h : lookupL w m with
        | none => exact absurd ((lookupL_eq_none w m).mp h) (by simpa using hw)
        | some c => exact ⟨c, rfl⟩
      have hstep : wordStep m w = m.map (fun e => if e.1 = w then (w, c + 1) else e) := by
        rw [wordStep, hc]
        exact setL_present_map (c + 1) hnd hw
      have hnd' : (keysL (m.map (fun e => if e.1 = w then (w, c + 1) else e))).Nodup := by
        rw [keysL_map_overwrite]
        exact hnd
      rw [hstep, ih _ hnd', keysL_map_overwrite]
      have hfo : firstOccAux (keysL m) (w :: ts) = firstOccAux (keysL m) ts := by
        rw [firstOccAux, if_pos hw]
      rw [hfo]
      congr 1
      · rw [List.map_map]
        refine List.map_congr_left ?_
        intro e he
        by_cases hew : e.1 = w
        · have he2 : e.2 = c := by
            have := lookupL_of_mem hnd (m := m) (k := e.1) (v := e.2) (by simpa using he)
            rw [hew, hc] at this
            exact (Option.some.injEq .. ▸ this.symm)
          simp only [Function.comp, if_pos hew, hew, he2]
          rw [List.count_cons]
          simp
          omega
        · simp only [Function.comp, if_neg hew]
          rw [List.count_cons]
          have : (w == e.1) = false := by
            simp
            intro hc'
            exact hew hc'.symm
          simp [this]
      · refine List.map_congr_left ?_
        intro u hu
        have hune : u ≠ w := by
          intro hc'
          exact mem_firstOccAux_not_seen hu (hc' ▸ hw)
        rw [List.count_cons]
        have : (w == u) = false := by
          simp
          intro hc'
          exact hune hc'.symm
        simp [this]
    · have hnone : lookupL w m = none := (lookupL_eq_none w m).mpr (by simpa using hw)
      have hstep : wordStep m w = m ++ [(w, 1)] := by
        rw [wordStep, hnone]
        exact setL_absent 1 (by simpa using hw)
      have hkeys : keysL (m ++ [(w, 1)]) = keysL m ++ [w] := by
        simp [keysL]
      have hnd' : (keysL (m ++ [(w, 1)])).Nodup := by
        rw [hkeys]
        refine List.Nodup.append hnd (List.nodup_singleton w) ?_
        simpa using hw
      rw [hstep, ih _ hnd', hkeys]
      have hfo : firstOccAux (keysL m) (w :: ts) = w :: firstOccAux (w :: keysL m) ts := by
        rw [firstOccAux, if_neg hw]
      have hfo2 : firstOccAux (keysL m ++ [w]) ts = firstOccAux (w :: keysL m) ts := by
        refine firstOccAux_congr ts ?_
        intro u
        simp [List.mem_append, List.mem_cons, or_comm]
      have hcount : List.count w (w :: ts) = ts.count w + 1 := by
        rw [List.count_cons]
        simp
      have hg : m.map (fun e => ((e : String × Nat).1, e.2 + ts.count e.1)) =
          m.map (fun e => (e.1, e.2 + List.count e.1 (w :: ts))) := by
        refine List.map_congr_left ?_
        intro e he
        have hew : ¬ e.1 = w := by
          intro hc'
          exact hw (hc' ▸ List.mem_map_of_mem Prod.fst he)
        rw [List.count_cons]
        have hb : (w == e.1) = false := by
          simp
          intro hc'
          exact hew hc'.symm
        simp [hb]
      have hh : (firstOccAux (w :: keysL m) ts).map (fun u => ((u : String), ts.count u)) =
          (firstOccAux (w :: keysL m) ts).map (fun u => (u, List.count u (w :: ts))) := by
        refine List.map_congr_left ?_
        intro u hu
        have hune : u ≠ w := by
          intro hc'
          exact mem_firstOccAux_not_seen hu (by simp [hc'])
        rw [List.count_cons]
        have hb : (w == u) = false := by
          simp
          intro hc'
          exact hune hc'.symm
        simp [hb]
      have h1 : ((w : String), 1 + ts.count w) = (w, List.count w (w :: ts)) := by
        rw [hcount]
        congr 1
        omega
      rw [hfo, hfo2]
      simp only [List.map_append, List.map_cons, List.map_nil]
      rw [hg, hh, h1, List.append_assoc, List.singleton_append]

/-- All tokens the selected ads contribute, in order. -/
def keywordTokens (ads : List GeneratedAd) : List String := (ads.map eligibleWords).join

/-- The common-word pipeline, spec-side: distinct tokens in first-occurrence
order with their occurrence counts, kept at count `≥ 2`, sorted by descending
count (stable), top 5. -/
def commonWordsSpec (ads : List GeneratedAd) : List String :=
  (((List.insertionSort countGE
      (((firstOcc (keywordTokens ads)).map
          (fun w => (w, (keywordTokens ads).count w))).filter (fun e => 2 ≤ e.2))).take 5).map (·.1))

theorem wordCounts_eq (ads : List GeneratedAd) :
    ads.foldl (fun m ad => (eligibleWords ad).foldl wordStep m) [] =
      (firstOcc (keywordTokens ads)).map (fun w => (w, (keywordTokens ads).count w)) := by
  have hjoin : ads.foldl (fun m ad => (eligibleWords ad).foldl wordStep m) [] =
      (keywordTokens ads).foldl wordStep [] := by
    rw [keywordTokens, List.foldl_join, List.foldl_map]
  rw [hjoin, foldl_wordStep (keywordTokens ads) [] (by simp [keysL])]
  simp [keysL, firstOcc]

theorem extractCommonWords_eq (ads : List GeneratedAd) :
    extractCommonWords ads = commonWordsSpec ads := by
  simp only [extractCommonWords, commonWordsSpec, wordCounts_eq]

theorem mem_keywordTokens_eligible {w : String} {ads : List GeneratedAd}
    (h : w ∈ keywordTokens ads) : wordEligible w = true := by
  rw [keywordTokens] at h
  obtain ⟨l, hl, hw⟩ := List.mem_join.mp h
  obtain ⟨ad, _, rfl⟩ := List.mem_map.mp hl
  exact List.of_mem_filter hw

theorem mem_commonWordsSpec {w : String} {ads : List GeneratedAd}
    (h : w ∈ commonWordsSpec ads) :
    wordEligible w = true ∧ 2 ≤ (keywordTokens ads).count w := by
  rw [commonWordsSpec] at h
  obtain ⟨e, he, rfl⟩ := List.mem_map.mp h
  have he1 : e ∈ List.insertionSort countGE
      (((firstOcc (keywordTokens ads)).map
        (fun w => (w, (keywordTokens ads).count w))).filter (fun e => 2 ≤ e.2)) :=
    List.take_subset 5 _ he
  have he2 := (List.perm_insertionSort countGE _).subset he1
  rw [List.mem_filter] at he2
  obtain ⟨hemem, hecnt⟩ := he2
  obtain ⟨u, hu, rfl⟩ := List.mem_map.mp hemem
  refine ⟨mem_keywordTokens_eligible (firstOccAux_sub hu), by simpa using hecnt⟩

theorem commonWordsSpec_length (ads : List GeneratedAd) :
    (commonWordsSpec ads).length ≤ 5 := by
  rw [commonWordsSpec, List.length_map]
  exact (List.length_take_le 5 _)

theorem commonWordsSpec_sorted (ads : List GeneratedAd) :
    List.Pairwise (fun u v => (keywordTokens ads).count v ≤ (keywordTokens ads).count u)
      (commonWordsSpec ads) := by
  rw [commonWordsSpec]
  rw [List.pairwise_map]
  have hsorted : List.Pairwise countGE (List.insertionSort countGE
      (((firstOcc (keywordTokens ads)).map
        (fun w => (w, (keywordTokens ads).count w))).filter (fun e => 2 ≤ e.2))) :=
    List.sorted_insertionSort countGE _
  have htake := hsorted.sublist (List.take_sublist 5 _)
  refine htake.imp_of_mem ?_
  intro a b ha hb hab
  have hmem : ∀ e ∈ (List.insertionSort countGE
      (((firstOcc (keywordTokens ads)).map
        (fun w => (w, (keywordTokens ads).count w))).filter (fun e => 2 ≤ e.2))).take 5,
      (e : String × Nat).2 = (keywordTokens ads).count e.1 := by
    intro e he
    have := (List.perm_insertionSort countGE _).subset (List.take_subset 5 _ he)
    rw [List.mem_filter] at this
    obtain ⟨u, _, rfl⟩ := List.mem_map.mp this.1
    rfl
  have := hmem a ha
  have := hmem b hb
  rw [countGE] at hab
  omega

/-! ### `Math.min`/`Math.max` really are minimum and maximum -/

theorem foldl_min_le (t : List Nat) : ∀ a : Nat,
    t.foldl Nat.min a ≤ a ∧ ∀ x ∈ t, t.foldl Nat.min a ≤ x := by
  induction t with
  | nil => intro a; exact ⟨le_refl a, by simp⟩
  | cons b t ih =>
    intro a
    rw [List.foldl_cons]
    obtain ⟨h1, h2⟩ := ih (Nat.min a b)
    refine ⟨h1.trans (Nat.min_le_left a b), ?_⟩
    intro x hx
    rcases List.mem_cons.mp hx with rfl | hx
    · exact h1.trans (Nat.min_le_right a x)
    · exact h2 x hx

theorem foldl_min_mem (t : List Nat) : ∀ a : Nat,
    t.foldl Nat.min a = a ∨ t.foldl Nat.min a ∈ t := by
  induction t with
  | nil => intro a; exact Or.inl rfl
  | cons b t ih =>
    intro a
    rw [List.foldl_cons]
    rcases ih (Nat.min a b) with h | h
    · rcases Nat.le_total a b with hab | hab
      · refine Or.inl ?_
        rw [h]
        show min a b = a
        omega
      · refine Or.inr ?_
        rw [h]
        have hb : Nat.min a b = b := by
          show min a b = b
          omega
        rw [hb]
        exact List.mem_cons_self _ _
    · exact Or.inr (List.mem_cons_of_mem _ h)

theorem foldl_max_ge (t : List Nat) : ∀ a : Nat,
    a ≤ t.foldl Nat.max a ∧ ∀ x ∈ t, x ≤ t.foldl Nat.max a := by
  induction t with
  | nil => intro a; exact ⟨le_refl a, by simp⟩
  | cons b t ih =>
    intro a
    rw [List.foldl_cons]
    obtain ⟨h1, h2⟩ := ih (Nat.max a b)
    refine ⟨(Nat.le_max_left a b).trans h1, ?_⟩
    intro x hx
    rcases List.mem_cons.mp hx with rfl | hx
    · exact (Nat.le_max_right a x).trans h1
    · exact h2 x hx

theorem foldl_max_mem (t : List Nat) : ∀ a : Nat,
    t.foldl Nat.max a = a ∨ t.foldl Nat.max a ∈ t := by
  induction t with
  | nil => intro a; exact Or.inl rfl
  | cons b t ih =>
    intro a
    rw [List.foldl_cons]
    rcases ih (Nat.max a b) with h | h
    · rcases Nat.le_total a b with hab | hab
      · refine Or.inr ?_
        rw [h]
        have hb : Nat.max a b = b := by
          show max a b = b
          omega
        rw [hb]
        exact List.mem_cons_self _ _
      · refine Or.inl ?_
        rw [h]
        show max a b = a
        omega
    · exact Or.inr (List.mem_cons_of_mem _ h)

theorem listMin_spec (l : List Nat) (h : l ≠ []) :
    listMin l ∈ l ∧ ∀ x ∈ l, listMin l ≤ x := by
  cases l with
  | nil => exact absurd rfl h
  | cons b t =>
    rw [listMin]
    obtain ⟨h1, h2⟩ := foldl_min_le t b
    constructor
    · rcases foldl_min_mem t b with he | he
      · rw [he]
        exact List.mem_cons_self _ _
      · exact List.mem_cons_of_mem _ he
    · intro x hx
      rcases List.mem_cons.mp hx with rfl | hx
      · exact h1
      · exact h2 x hx

theorem listMax_spec (l : List Nat) (h : l ≠ []) :
    listMax l ∈ l ∧ ∀ x ∈ l, x ≤ listMax l := by
  cases l with
  | nil => exact absurd rfl h
  | cons b t =>
    rw [listMax]
    obtain ⟨h1, h2⟩ := foldl_max_ge t b
    constructor
    · rcases foldl_max_mem t b with he | he
      · rw [he]
        exact List.mem_cons_self _ _
      · exact List.mem_cons_of_mem _ he
    · intro x hx
      rcases List.mem_cons.mp hx with rfl | hx
      · exact h1
      · exact h2 x hx

/-! ### Types of the suggestions each analyzer can emit -/

theorem analyzeHeadline_type {ads : List GeneratedAd} {s : OptimizationSuggestion}
    (h : s ∈ analyzeHeadlinePerformance ads) : s.type = SType.headline := by
  rcases analyzeHeadline_shape ads with he | ⟨e, he⟩ <;> rw [he] at h
  · simp at h
  · rw [List.mem_singleton] at h
    rw [h]
    rfl

theorem analyzeTone_type {ads : List GeneratedAd} {s : OptimizationSuggestion}
    (h : s ∈ analyzeTonePerformance ads) : s.type = SType.tone := by
  rcases analyzeTone_shape ads with he | ⟨e, he⟩ <;> rw [he] at h
  · simp at h
  · rw [List.mem_singleton] at h
    rw [h]
    rfl

theorem analyzeLength_type {ads : List GeneratedAd} {s : OptimizationSuggestion}
    (h : s ∈ analyzeLengthPerformance ads) : s.type = SType.headline := by
  rcases analyzeLength_shape ads with he | he <;> rw [he] at h
  · simp at h
  · rw [List.mem_singleton] at h
    rw [h]
    rfl

theorem analyzeKeyword_type {ads : List GeneratedAd} {s : OptimizationSuggestion}
    (h : s ∈ analyzeKeywordPerformance ads) : s.type = SType.keywords := by
  rcases analyzeKeyword_shape ads with he | ⟨ws, n, he⟩ <;> rw [he] at h
  · simp at h
  · rw [List.mem_singleton] at h
    rw [h]
    rfl

/-- Only the volume analyzer produces `description`-typed suggestions; the
ranked output's `description`-typed suggestions are exactly its output. -/
theorem getOpt_filter_description (now : Int) (ads : List GeneratedAd)
    (h3 : ¬ ads.length < 3) :
    (getOptimizationSuggestions now ads).filter (fun s => decide (s.type = SType.description)) =
      analyzeVolumePatterns now ads := by
  have hgo : getOptimizationSuggestions now ads =
      sortSuggestions
        ((if 0 < (ads.filter (·.performance.isSome)).length then
            analyzeHeadlinePerformance (ads.filter (·.performance.isSome))
              ++ analyzeTonePerformance (ads.filter (·.performance.isSome))
              ++ analyzeLengthPerformance (ads.filter (·.performance.isSome))
              ++ analyzeKeywordPerformance (ads.filter (·.performance.isSome))
          else []) ++ analyzeVolumePatterns now ads) := by
    simp only [getOptimizationSuggestions, computeSuggestions]
    rw [if_neg h3]
  rw [hgo]
  have hperm := (List.perm_insertionSort suggLE
      ((if 0 < (ads.filter (·.performance.isSome)).length then
          analyzeHeadlinePerformance (ads.filter (·.performance.isSome))
            ++ analyzeTonePerformance (ads.filter (·.performance.isSome))
            ++ analyzeLengthPerformance (ads.filter (·.performance.isSome))
            ++ analyzeKeywordPerformance (ads.filter (·.performance.isSome))
        else []) ++ analyzeVolumePatterns now ads)).filter
      (fun s => decide (s.type = SType.description))
  rw [List.filter_append] at hperm
  have hana : (if 0 < (ads.filter (·.performance.isSome)).length then
      analyzeHeadlinePerformance (ads.filter (·.performance.isSome))
        ++ analyzeTonePerformance (ads.filter (·.performance.isSome))
        ++ analyzeLengthPerformance (ads.filter (·.performance.isSome))
        ++ analyzeKeywordPerformance (ads.filter (·.performance.isSome))
      else []).filter (fun s => decide (s.type = SType.description)) = [] := by
    rw [List.filter_eq_nil_iff]
    intro s hs
    by_cases hp : 0 < (ads.filter (·.performance.isSome)).length
    · rw [if_pos hp] at hs
      simp only [List.mem_append] at hs
      rcases hs with ((hs | hs) | hs) | hs
      · simp [analyzeHeadline_type hs]
      · simp [analyzeTone_type hs]
      · simp [analyzeLength_type hs]
      · simp [analyzeKeyword_type hs]
    · rw [if_neg hp] at hs
      simp at hs
  have hvol : (analyzeVolumePatterns now ads).filter
      (fun s => decide (s.type = SType.description)) = analyzeVolumePatterns now ads := by
    rcases analyzeVolume_shape now ads with hv | hv <;> rw [hv] <;> rfl
  rw [hana, hvol, List.nil_append] at hperm
  rcases analyzeVolume_shape now ads with hv | hv <;> rw [hv] <;> rw [hv] at hperm
  · exact hperm.eq_nil
  · exact List.perm_singleton.mp hperm

/-! ### The claims -/

/-- **C1**: for every user whose stored ad list has fewer than 3 ads,
`getOptimizationSuggestions` returns exactly the 3 fixed fallback suggestions
(confidences 65, 70, 75) in their fixed production order, verbatim and not
re-ranked, regardless of the ads' content or performance data. -/
theorem claim_C1_fallback (ads : List GeneratedAd) (now : Int) (h : ads.length < 3) :
    getOptimizationSuggestions now ads = getBasicSuggestions ∧
    getBasicSuggestions =
      [ { type := SType.headline
          priority := Priority.medium
          title := "Test Different Headline Approaches"
          description := "Try question-based, benefit-focused, and urgency-driven headlines"
          impact := "Discover what resonates with your audience"
          confidence := 65
          basedOn := "Industry best practices" },
        { type := SType.tone
          priority := Priority.medium
          title := "Experiment with Tone Variations"
          description := "Test professional, casual, and urgent tones to find your optimal voice"
          impact := "Different tones can improve engagement by 15-30%"
          confidence := 70
          basedOn := "Marketing research" },
        { type := SType.description
          priority := Priority.low
          title := "Include Clear Call-to-Actions"
          description := "Add specific actions like \"Call Now\", \"Learn More\", or \"Get Quote\""
          impact := "Clear CTAs can increase click-through rates"
          confidence := 75
          basedOn := "Advertising best practices" } ] := by
  constructor
  · simp only [getOptimizationSuggestions, computeSuggestions]
    rw [if_pos h]
  · rfl

/-- An ad with performance data but fewer than 3 ads stored in total, for the
C1 witness. -/
def c1Ad : GeneratedAd :=
  { headline := "Great Cheap Fast Shoes"
    description := "Buy the best shoes online today"
    tone := some "Professional"
    performance := some ⟨some (mkRat 1 10), none, none, none, none, none⟩
    createdAt := 0 }

/-- Witness for C1 at a concrete 2-ad store. -/
theorem claim_C1_fallback_witness :
    ([c1Ad, c1Ad] : List GeneratedAd).length < 3 ∧
      getOptimizationSuggestions 5 [c1Ad, c1Ad] = getBasicSuggestions :=
  ⟨by decide, (claim_C1_fallback [c1Ad, c1Ad] 5 (by decide)).1⟩

/-- The tie class of the ranking sort: one priority rank, one confidence. -/
def confTie (pr : Nat) (c : ℚ) (s : OptimizationSuggestion) : Bool :=
  decide (prioRank s = pr ∧ s.confidence = c)

/-- A high-priority confidence-85 suggestion, for C3's concrete example. -/
def exHigh85 : OptimizationSuggestion :=
  ⟨SType.headline, Priority.high, "example high 85", "", "", 85, ""⟩

/-- A medium-priority confidence-75 suggestion, for C3's concrete example. -/
def exMed75 : OptimizationSuggestion :=
  ⟨SType.tone, Priority.medium, "example medium 75", "", "", 75, ""⟩

/-- A medium-priority confidence-60 suggestion, for C3's concrete example. -/
def exMed60 : OptimizationSuggestion :=
  ⟨SType.description, Priority.medium, "example medium 60", "", "", 60, ""⟩

/-- **C3**: the final result is the concatenated analyzer output stably
sorted: a permutation, pairwise ordered by "high first, then descending
confidence" (`suggLE`), with every priority/confidence tie class keeping its
production order; and one high-85 plus medium-75/medium-60 yields
`[85-high, 75-medium, 60-medium]`. -/
theorem claim_C3_ranking : ∀ l : List OptimizationSuggestion,
    (sortSuggestions l).Perm l ∧
    List.Pairwise suggLE (sortSuggestions l) ∧
    (∀ pr c, (sortSuggestions l).filter (confTie pr c) = l.filter (confTie pr c)) ∧
    sortSuggestions [exMed60, exHigh85, exMed75] = [exHigh85, exMed75, exMed60] := by
  intro l
  refine ⟨List.perm_insertionSort suggLE l, List.sorted_insertionSort suggLE l, ?_, by decide⟩
  intro pr c
  refine filter_insertionSort_tie suggLE (confTie pr c) ?_ l
  intro y z hy hz
  rw [confTie, decide_eq_true_eq] at hy hz
  exact Or.inr ⟨hy.1.trans hz.1.symm, by rw [hy.2, hz.2]⟩

/-- **C8**: an ad with absent or malformed performance never makes the
computation fail — `getOptimizationSuggestions` is total and equals the
ranked concatenation — and each analyzer's output only depends on the ads
that carry the numeric signal it needs (all others are excluded from its
sample, "no signal" rather than zero). -/
theorem claim_C8_robust : ∀ (now : Int) (ads : List GeneratedAd),
    getOptimizationSuggestions now ads =
      (if ads.length < 3 then getBasicSuggestions
        else sortSuggestions
          ((if 0 < (ads.filter (·.performance.isSome)).length then
              analyzeHeadlinePerformance (ads.filter (·.performance.isSome))
                ++ analyzeTonePerformance (ads.filter (·.performance.isSome))
                ++ analyzeLengthPerformance (ads.filter (·.performance.isSome))
                ++ analyzeKeywordPerformance (ads.filter (·.performance.isSome))
            else []) ++ analyzeVolumePatterns now ads)) ∧
    analyzeHeadlinePerformance ads = analyzeHeadlinePerformance (ads.filter truthyCtr) ∧
    analyzeTonePerformance ads =
      analyzeTonePerformance (ads.filter (fun ad => truthyTone ad && truthyCtr ad)) ∧
    analyzeLengthPerformance ads = analyzeLengthPerformance (ads.filter lengthQualifies) ∧
    analyzeKeywordPerformance ads = analyzeKeywordPerformance (ads.filter keywordQualifies) :=
  fun _ ads =>
    ⟨rfl, analyzeHeadline_ignores ads, analyzeTone_ignores ads, analyzeLength_ignores ads,
      analyzeKeyword_ignores ads⟩

/-- **C9**: the method is a pure function of the loaded ad list and the clock
reading: a call leaves the store unchanged, an immediate second call returns
the identical output, and the result depends on the store only through the
calling user's ad list. -/
theorem claim_C9_idempotent : ∀ (s : Store) (userId : Nat) (now : Int),
    (getOptimizationSuggestionsM userId now s).2 = s ∧
    getOptimizationSuggestionsM userId now ((getOptimizationSuggestionsM userId now s).2) =
      getOptimizationSuggestionsM userId now s ∧
    (getOptimizationSuggestionsM userId now s).1 = computeSuggestions now (s userId) ∧
    (∀ s' : Store, s userId = s' userId →
      (getOptimizationSuggestionsM userId now s).1 =
        (getOptimizationSuggestionsM userId now s').1) := by
  intro s userId now
  refine ⟨rfl, rfl, rfl, ?_⟩
  intro s' h
  simp only [getOptimizationSuggestionsM, getGeneratedAds, h]

/-- **C7**: for a user with at least 3 stored ads, the final output contains
the one `description`/`low`/confidence-60 volume suggestion exactly when
strictly fewer than 5 ads were created within the last 30 days. -/
theorem claim_C7_volume (now : Int) (ads : List GeneratedAd) (h3 : 3 ≤ ads.length) :
    ((ads.filter (isRecent now)).length < 5 →
      (getOptimizationSuggestions now ads).filter
        (fun s => decide (s.type = SType.description)) = [volumeSuggestion]) ∧
    (5 ≤ (ads.filter (isRecent now)).length →
      (getOptimizationSuggestions now ads).filter
        (fun s => decide (s.type = SType.description)) = []) ∧
    volumeSuggestion.type = SType.description ∧
    volumeSuggestion.priority = Priority.low ∧
    volumeSuggestion.confidence = 60 := by
  have hmain := getOpt_filter_description now ads (by omega)
  refine ⟨?_, ?_, rfl, rfl, rfl⟩
  · intro h5
    rw [hmain]
    simp only [analyzeVolumePatterns]
    rw [if_pos h5]
  · intro h5
    rw [hmain]
    simp only [analyzeVolumePatterns]
    rw [if_neg (by omega)]

/-- A performance-less ad created at the epoch, for the C7 witness. -/
def c7Ad : GeneratedAd :=
  { headline := "Plain Headline Here"
    description := "Plain description"
    tone := none
    performance := none
    createdAt := 0 }

/-- Witness for C7: four stored ads, all four created within the last 30
days, at a concrete clock reading. -/
theorem claim_C7_volume_witness :
    3 ≤ (List.replicate 4 c7Ad).length ∧
    (((List.replicate 4 c7Ad).filter (isRecent 86400000)).length < 5 ∧
      (getOptimizationSuggestions 86400000 (List.replicate 4 c7Ad)).filter
        (fun s => decide (s.type = SType.description)) = [volumeSuggestion]) :=
  ⟨by decide,
    ⟨by decide, (claim_C7_volume 86400000 (List.replicate 4 c7Ad) (by decide)).1 (by decide)⟩⟩

/-- **C10**: the output never has more than 5 suggestions — exactly 3 below
the fallback floor, at most one per analyzer otherwise — and a user with at
least 3 ads, none performance-bearing, and at least 5 recent ads gets the
empty list. -/
theorem claim_C10_bounds : ∀ (now : Int) (ads : List GeneratedAd),
    (ads.length < 3 → (getOptimizationSuggestions now ads).length = 3) ∧
    (getOptimizationSuggestions now ads).length ≤ 5 ∧
    (3 ≤ ads.length → (∀ ad ∈ ads, ad.performance = none) →
      5 ≤ (ads.filter (isRecent now)).length →
      getOptimizationSuggestions now ads = []) := by
  intro now ads
  refine ⟨?_, ?_, ?_⟩
  · intro h
    simp only [getOptimizationSuggestions, computeSuggestions]
    rw [if_pos h]
    rfl
  · by_cases h : ads.length < 3
    · simp only [getOptimizationSuggestions, computeSuggestions]
      rw [if_pos h]
      simp [getBasicSuggestions]
    · simp only [getOptimizationSuggestions, computeSuggestions]
      rw [if_neg h]
      rw [show ∀ L : List OptimizationSuggestion,
          (sortSuggestions L).length = L.length from
        fun L => (List.perm_insertionSort suggLE L).length_eq]
      rw [List.length_append]
      have hhead : (analyzeHeadlinePerformance (ads.filter (·.performance.isSome))).length ≤ 1 := by
        rcases analyzeHeadline_shape (ads.filter (·.performance.isSome)) with hh | ⟨e, hh⟩ <;>
          simp [hh]
      have htone : (analyzeTonePerformance (ads.filter (·.performance.isSome))).length ≤ 1 := by
        rcases analyzeTone_shape (ads.filter (·.performance.isSome)) with hh | ⟨e, hh⟩ <;>
          simp [hh]
      have hlen : (analyzeLengthPerformance (ads.filter (·.performance.isSome))).length ≤ 1 := by
        rcases analyzeLength_shape (ads.filter (·.performance.isSome)) with hh | hh <;>
          simp [hh]
      have hkw : (analyzeKeywordPerformance (ads.filter (·.performance.isSome))).length ≤ 1 := by
        rcases analyzeKeyword_shape (ads.filter (·.performance.isSome)) with hh | ⟨ws, n, hh⟩ <;>
          simp [hh]
      have hvol : (analyzeVolumePatterns now ads).length ≤ 1 := by
        rcases analyzeVolume_shape now ads with hh | hh <;> simp [hh]
      by_cases hp : 0 < (ads.filter (·.performance.isSome)).length
      · rw [if_pos hp]
        simp only [List.length_append]
        omega
      · rw [if_neg hp]
        simp only [List.length_nil]
        omega
  · intro h3 hperf h5
    have hP : ads.filter (·.performance.isSome) = [] := by
      rw [List.filter_eq_nil_iff]
      intro ad had
      rw [hperf ad had]
      simp
    have hV : analyzeVolumePatterns now ads = [] := by
      simp only [analyzeVolumePatterns]
      rw [if_neg (by omega)]
    simp only [getOptimizationSuggestions, computeSuggestions]
    rw [if_neg (by omega), hP, hV]
    simp [sortSuggestions, List.insertionSort]

/-- Witness for C10 at a concrete store: five performance-less recent ads. -/
theorem claim_C10_bounds_witness :
    3 ≤ (List.replicate 5 c7Ad).length ∧
    (∀ ad ∈ List.replicate 5 c7Ad, ad.performance = none) ∧
    5 ≤ ((List.replicate 5 c7Ad).filter (isRecent 0)).length ∧
    getOptimizationSuggestions 0 (List.replicate 5 c7Ad) = [] :=
  ⟨by decide, by decide, by decide,
    (claim_C10_bounds 0 (List.replicate 5 c7Ad)).2.2 (by decide) (by decide) (by decide)⟩

/-! ### C2: the headline-pattern analyzer -/

/-- The first three whitespace-delimited tokens of the headline (the claim's
pattern key, written from the claim's words; the code splits on single space
characters instead). -/
def wsPatternOf (ad : GeneratedAd) : String :=
  joinSep " " (((splitWs ad.headline).filter (fun s => decide (s ≠ ""))).take 3)

/-- The claim's headline group: performance-bearing ads with a numeric CTR
(zero included), keyed by the whitespace-token pattern. -/
def wsHeadlineGroup (ads : List GeneratedAd) (k : String) : List ℚ :=
  groupCtrs wsPatternOf perfCtr k ads

/-- An ad with CTR 0.05 whose headline starts "Great Cheap Fast". -/
def c2AdHigh : GeneratedAd :=
  { headline := "Great Cheap Fast Shoes"
    description := "Buy now"
    tone := none
    performance := some ⟨some (mkRat 1 20), none, none, none, none, none⟩
    createdAt := 0 }

/-- An ad with numeric CTR exactly 0 and the same first three words. -/
def c2AdZero : GeneratedAd :=
  { headline := "Great Cheap Fast Boots"
    description := "Buy now"
    tone := none
    performance := some ⟨some (mkRat 0 1), none, none, none, none, none⟩
    createdAt := 0 }

/-- **C2, counterexample**: two performance-bearing ads share the pattern key
`"Great Cheap Fast"` with numeric CTRs 0.05 and 0, so the group has 2 members
and mean CTR 0.025 > 0.02 — yet the analyzer emits nothing, because the code
drops the CTR-0 ad (`if (perf.ctr)` is falsy at 0), leaving the group a
singleton. -/
theorem claim_C2_counterexample :
    2 ≤ (wsHeadlineGroup [c2AdHigh, c2AdZero] "Great Cheap Fast").length ∧
    ctrThreshold < meanQ (wsHeadlineGroup [c2AdHigh, c2AdZero] "Great Cheap Fast") ∧
    analyzeHeadlinePerformance [c2AdHigh, c2AdZero] = [] := by
  refine ⟨by decide, ?_, by decide⟩
  have h : wsHeadlineGroup [c2AdHigh, c2AdZero] "Great Cheap Fast" =
      [mkRat 1 20, mkRat 0 1] := by decide
  rw [h, ctrThreshold_eq]
  norm_num [meanQ, Rat.mkRat_eq_div]

/-- **C2, amended**: group membership requires a present, *nonzero* CTR (the
code's truthiness test; CTR exactly 0 is excluded), and the pattern key is the
first three tokens of the headline split on single space characters.  With
that: whenever some key has ≥ 2 members and mean CTR > 0.02 the analyzer
emits exactly one `headline`/`high` suggestion with confidence 85, and when
every key with ≥ 2 members has mean CTR ≤ 0.02 (boundary exclusive) it emits
nothing. -/
theorem claim_C2_amended : ∀ ads : List GeneratedAd,
    ((∃ k, 2 ≤ (headlineGroup ads k).length ∧ ctrThreshold < meanQ (headlineGroup ads k)) →
      ∃ s, analyzeHeadlinePerformance ads = [s] ∧ s.type = SType.headline ∧
        s.priority = Priority.high ∧ s.confidence = 85) ∧
    ((∀ k, 2 ≤ (headlineGroup ads k).length → meanQ (headlineGroup ads k) ≤ ctrThreshold) →
      analyzeHeadlinePerformance ads = []) := by
  intro ads
  constructor
  · intro h
    obtain ⟨top, htop⟩ := analyzeHeadline_emits ads h
    exact ⟨mkHeadlineSugg top, htop, rfl, rfl, rfl⟩
  · exact analyzeHeadline_silent ads

/-- Witness for the amended C2: two ads sharing the key `"Great Cheap Fast"`,
CTRs 0.05 and 0.03, mean 0.04 > 0.02. -/
def c2AdB : GeneratedAd :=
  { headline := "Great Cheap Fast Boots"
    description := "Buy now"
    tone := none
    performance := some ⟨some (mkRat 3 100), none, none, none, none, none⟩
    createdAt := 0 }

theorem claim_C2_amended_witness :
    ∃ s, analyzeHeadlinePerformance [c2AdHigh, c2AdB] = [s] ∧ s.type = SType.headline ∧
      s.priority = Priority.high ∧ s.confidence = 85 :=
  (claim_C2_amended [c2AdHigh, c2AdB]).1 ⟨"Great Cheap Fast", by decide, by
    have h : headlineGroup [c2AdHigh, c2AdB] "Great Cheap Fast" =
        [mkRat 1 20, mkRat 3 100] := by decide
    rw [h, ctrThreshold_eq]
    norm_num [meanQ, Rat.mkRat_eq_div]⟩

/-! ### C6: the tone analyzer -/

/-- The claim's tone group: performance-bearing ads with a nonempty tone and
a numeric CTR (zero included). -/
def numericToneGroup (ads : List GeneratedAd) (t : String) : List ℚ :=
  groupCtrs toneKey (fun ad => if truthyTone ad then perfCtr ad else none) t ads

/-- An ad with tone "Professional" and CTR 0.05. -/
def c6AdHigh : GeneratedAd :=
  { headline := "Alpha Beta Gamma Delta"
    description := "Buy now"
    tone := some "Professional"
    performance := some ⟨some (mkRat 1 20), none, none, none, none, none⟩
    createdAt := 0 }

/-- An ad with tone "Professional" and numeric CTR exactly 0. -/
def c6AdZero : GeneratedAd :=
  { headline := "Epsilon Zeta Eta Theta"
    description := "Buy now"
    tone := some "Professional"
    performance := some ⟨some (mkRat 0 1), none, none, none, none, none⟩
    createdAt := 0 }

/-- **C6, counterexample**: two performance-bearing ads carry tone
`"Professional"` with numeric CTRs 0.05 and 0 — 2 members, mean 0.025 > 0.02 —
yet the analyzer emits nothing: the CTR-0 ad is dropped from the group
entirely (the code's `if (perf.ctr)` truthiness test), not merely from the
mean, so the group the code sees has only 1 member. -/
theorem claim_C6_counterexample :
    2 ≤ (numericToneGroup [c6AdHigh, c6AdZero] "Professional").length ∧
    ctrThreshold < meanQ (numericToneGroup [c6AdHigh, c6AdZero] "Professional") ∧
    analyzeTonePerformance [c6AdHigh, c6AdZero] = [] := by
  refine ⟨by decide, ?_, by decide⟩
  have h : numericToneGroup [c6AdHigh, c6AdZero] "Professional" =
      [mkRat 1 20, mkRat 0 1] := by decide
  rw [h, ctrThreshold_eq]
  norm_num [meanQ, Rat.mkRat_eq_div]

/-- **C6, amended**: group membership requires a nonempty tone *and* a
present, nonzero CTR (the code's truthiness tests; CTR exactly 0 excludes the
ad from the group, count included).  With that: if some tone has ≥ 2 members
and the best such mean CTR exceeds 0.02, exactly one `tone`/`medium`
suggestion with confidence 75 is emitted, else nothing. -/
theorem claim_C6_amended : ∀ ads : List GeneratedAd,
    ((∃ t, 2 ≤ (toneGroup ads t).length ∧ ctrThreshold < meanQ (toneGroup ads t)) →
      ∃ s, analyzeTonePerformance ads = [s] ∧ s.type = SType.tone ∧
        s.priority = Priority.medium ∧ s.confidence = 75) ∧
    ((∀ t, 2 ≤ (toneGroup ads t).length → meanQ (toneGroup ads t) ≤ ctrThreshold) →
      analyzeTonePerformance ads = []) := by
  intro ads
  constructor
  · intro h
    obtain ⟨top, htop⟩ := analyzeTone_emits ads h
    exact ⟨mkToneSugg top, htop, rfl, rfl, rfl⟩
  · exact analyzeTone_silent ads

/-- A second "Professional" ad with nonzero CTR 0.03, for the C6 witness. -/
def c6AdB : GeneratedAd :=
  { headline := "Iota Kappa Lambda Mu"
    description := "Buy now"
    tone := some "Professional"
    performance := some ⟨some (mkRat 3 100), none, none, none, none, none⟩
    createdAt := 0 }

theorem claim_C6_amended_witness :
    ∃ s, analyzeTonePerformance [c6AdHigh, c6AdB] = [s] ∧ s.type = SType.tone ∧
      s.priority = Priority.medium ∧ s.confidence = 75 :=
  (claim_C6_amended [c6AdHigh, c6AdB]).1 ⟨"Professional", by decide, by
    have h : toneGroup [c6AdHigh, c6AdB] "Professional" =
        [mkRat 1 20, mkRat 3 100] := by decide
    rw [h, ctrThreshold_eq]
    norm_num [meanQ, Rat.mkRat_eq_div]⟩

/-! ### C5: the length-band analyzer -/

/-- The top slice the claim talks about: qualifying rows sorted by CTR
descending, top 30 % rounded up. -/
def topSlice (ads : List GeneratedAd) : List LengthDatum :=
  (List.insertionSort ctrGE (lengthData ads)).take
    ⌈((lengthData ads).length : ℚ) * (3/10)⌉.toNat

/-- The headline lengths within the top slice. -/
def sliceLens (ads : List GeneratedAd) : List Nat := (topSlice ads).map (·.headlineLength)

theorem findOptimalLength_fields (ads : List GeneratedAd) :
    findOptimalLength (lengthData ads) =
      { optimal := jsRound (rdivN (rsum ((sliceLens ads).map natQ)) (sliceLens ads).length)
        range := toString (listMin (sliceLens ads)) ++ "-" ++ toString (listMax (sliceLens ads))
        improvement := mkRat 3 20
        confidence := mkRat 3 4 } := by
  simp only [findOptimalLength]
  rw [show ceil30 (List.insertionSort ctrGE (lengthData ads)).length =
      ⌈((lengthData ads).length : ℚ) * (3/10)⌉.toNat from by
    rw [(List.perm_insertionSort ctrGE (lengthData ads)).length_eq, ceil30_eq]]
  rfl

theorem optimal_eq (l : List Nat) :
    jsRound (rdivN (rsum (l.map natQ)) l.length) =
      ⌊meanQ (l.map (fun n : Nat => (n : ℚ))) + 1/2⌋ := by
  rw [jsRound_eq, rdivN_eq, rsum_eq, meanQ]
  rw [show l.map natQ = l.map (fun n : Nat => (n : ℚ)) from
    List.map_congr_left (fun n _ => natQ_eq n)]
  rw [List.length_map]

theorem desc_string (r : String) :
    "Headlines around " ++ r ++ " characters perform "
        ++ fmtFixed0 (rmulN (mkRat 3 20) 100) ++ "% better" =
      "Headlines around " ++ r ++ " characters perform 15% better" := by
  have h15 : fmtFixed0 (rmulN (mkRat 3 20) 100) = "15" := by decide
  rw [h15, String.append_assoc, String.append_assoc]
  exact congrArg _ (by decide)

set_option maxHeartbeats 1000000 in
/-- **C5**: with fewer than 5 performance-bearing ads of positive CTR the
length analyzer emits nothing; with at least 5 it sorts them by CTR
descending, takes the top 30 % rounded up, and emits exactly one
`headline`/`medium` suggestion with confidence 75, optimal length the mean
headline length of the slice rounded to nearest, range its true minimum and
maximum, and the fixed 15 % improvement figure. -/
theorem claim_C5_length : ∀ ads : List GeneratedAd,
    ((lengthData ads).length < 5 → analyzeLengthPerformance ads = []) ∧
    (5 ≤ (lengthData ads).length →
      ∃ s, analyzeLengthPerformance ads = [s] ∧
        s.type = SType.headline ∧ s.priority = Priority.medium ∧ s.confidence = 75 ∧
        s.impact = "Target "
          ++ toString ⌊meanQ ((sliceLens ads).map (fun n : Nat => (n : ℚ))) + 1/2⌋
          ++ " characters for headlines" ∧
        s.description = "Headlines around "
          ++ (toString (listMin (sliceLens ads)) ++ "-" ++ toString (listMax (sliceLens ads)))
          ++ " characters perform 15% better" ∧
        List.Sorted ctrGE (List.insertionSort ctrGE (lengthData ads)) ∧
        (List.insertionSort ctrGE (lengthData ads)).Perm (lengthData ads) ∧
        (topSlice ads).length = ⌈((lengthData ads).length : ℚ) * (3/10)⌉.toNat ∧
        listMin (sliceLens ads) ∈ sliceLens ads ∧
        (∀ x ∈ sliceLens ads, listMin (sliceLens ads) ≤ x) ∧
        listMax (sliceLens ads) ∈ sliceLens ads ∧
        (∀ x ∈ sliceLens ads, x ≤ listMax (sliceLens ads))) := by
  intro ads
  refine ⟨(analyzeLength_char ads).1, ?_⟩
  intro h5
  rw [(analyzeLength_char ads).2 h5]
  have hslice : (topSlice ads).length = ⌈((lengthData ads).length : ℚ) * (3/10)⌉.toNat := by
    rw [topSlice, List.length_take, (List.perm_insertionSort ctrGE (lengthData ads)).length_eq]
    rw [show (⌈((lengthData ads).length : ℚ) * (3/10)⌉.toNat) =
        ceil30 (lengthData ads).length from (ceil30_eq _).symm]
    exact min_eq_left (ceil30_le _)
  have hne : sliceLens ads ≠ [] := by
    rw [← List.length_pos, sliceLens, List.length_map, hslice,
      show (⌈((lengthData ads).length : ℚ) * (3/10)⌉.toNat) =
        ceil30 (lengthData ads).length from (ceil30_eq _).symm]
    exact one_le_ceil30 _ (by omega)
  obtain ⟨hminmem, hminle⟩ := listMin_spec (sliceLens ads) hne
  obtain ⟨hmaxmem, hmaxle⟩ := listMax_spec (sliceLens ads) hne
  refine ⟨_, rfl, rfl, rfl, ?_, ?_, ?_,
    List.sorted_insertionSort ctrGE (lengthData ads),
    List.perm_insertionSort ctrGE (lengthData ads),
    hslice, hminmem, hminle, hmaxmem, hmaxle⟩
  · show intQ (jsRound (rmulN (findOptimalLength (lengthData ads)).confidence 100)) = 75
    rw [findOptimalLength_confidence]
    decide
  · show "Target " ++ toString (findOptimalLength (lengthData ads)).optimal
        ++ " characters for headlines" = _
    rw [findOptimalLength_fields]
    show "Target "
        ++ toString (jsRound (rdivN (rsum ((sliceLens ads).map natQ)) (sliceLens ads).length))
        ++ " characters for headlines" = _
    rw [optimal_eq]
  · show "Headlines around " ++ (findOptimalLength (lengthData ads)).range
        ++ " characters perform "
        ++ fmtFixed0 (rmulN (findOptimalLength (lengthData ads)).improvement 100)
        ++ "% better" = _
    rw [findOptimalLength_fields]
    show "Headlines around "
        ++ (toString (listMin (sliceLens ads)) ++ "-" ++ toString (listMax (sliceLens ads)))
        ++ " characters perform " ++ fmtFixed0 (rmulN (mkRat 3 20) 100) ++ "% better" = _
    exact desc_string _

/-- A qualifying ad for the C5 witness. -/
def c5Ad (h : String) (c : ℚ) : GeneratedAd :=
  { headline := h
    description := "A plain description"
    tone := none
    performance := some ⟨some c, none, none, none, none, none⟩
    createdAt := 0 }

/-- The C5 witness store: five ads with distinct positive CTRs. -/
def c5Ads : List GeneratedAd :=
  [ c5Ad "Alpha Beta Gamma One" (mkRat 5 100),
    c5Ad "Short Head" (mkRat 4 100),
    c5Ad "Another Headline Two" (mkRat 3 100),
    c5Ad "Tiny" (mkRat 2 100),
    c5Ad "Mega Long Headline Example Five" (mkRat 1 100) ]

set_option maxHeartbeats 1000000 in
theorem claim_C5_length_witness :
    5 ≤ (lengthData c5Ads).length ∧
      (∃ s, analyzeLengthPerformance c5Ads = [s] ∧
        s.type = SType.headline ∧ s.priority = Priority.medium ∧ s.confidence = 75 ∧
        s.impact = "Target "
          ++ toString ⌊meanQ ((sliceLens c5Ads).map (fun n : Nat => (n : ℚ))) + 1/2⌋
          ++ " characters for headlines" ∧
        s.description = "Headlines around "
          ++ (toString (listMin (sliceLens c5Ads)) ++ "-" ++ toString (listMax (sliceLens c5Ads)))
          ++ " characters perform 15% better" ∧
        List.Sorted ctrGE (List.insertionSort ctrGE (lengthData c5Ads)) ∧
        (List.insertionSort ctrGE (lengthData c5Ads)).Perm (lengthData c5Ads) ∧
        (topSlice c5Ads).length = ⌈((lengthData c5Ads).length : ℚ) * (3/10)⌉.toNat ∧
        listMin (sliceLens c5Ads) ∈ sliceLens c5Ads ∧
        (∀ x ∈ sliceLens c5Ads, listMin (sliceLens c5Ads) ≤ x) ∧
        listMax (sliceLens c5Ads) ∈ sliceLens c5Ads ∧
        (∀ x ∈ sliceLens c5Ads, x ≤ listMax (sliceLens c5Ads))) :=
  ⟨by decide, (claim_C5_length c5Ads).2 (by decide)⟩

/-! ### C4: the keyword analyzer -/

/-- The ads the code actually selects: qualifying ads, first 10 in the
store's iteration order (`.slice(0, 10)`). -/
def keywordSelected (ads : List GeneratedAd) : List GeneratedAd :=
  (ads.filter keywordQualifies).take 10

/-- The last `n` elements in order — the "`n` most recent by insertion
order", since the ad store iterates its id-keyed map oldest-first. -/
def lastN (n : Nat) (l : List GeneratedAd) : List GeneratedAd := l.drop (l.length - n)

/-- The keyword pipeline as the claim states it, with the selection taken
from the claim's words: "at most the 10 most recent such ads by insertion
order" (the rest of the pipeline as in the code). -/
def keywordMostRecentResult (ads : List GeneratedAd) : List OptimizationSuggestion :=
  if 3 ≤ (lastN 10 (ads.filter keywordQualifies)).length then
    (if commonWordsSpec (lastN 10 (ads.filter keywordQualifies)) = [] then []
     else [mkKeywordSugg (commonWordsSpec (lastN 10 (ads.filter keywordQualifies)))
            (lastN 10 (ads.filter keywordQualifies)).length])
  else []

/-- A qualifying keyword-analyzer ad (CTR 0.05 > 0.025). -/
def c4Ad (h : String) : GeneratedAd :=
  { headline := h
    description := "x"
    tone := none
    performance := some ⟨some (mkRat 1 20), none, none, none, none, none⟩
    createdAt := 0 }

/-- Eleven qualifying ads: the oldest contributes the token `zzzz` twice,
the ten newer ones contribute `aaaa` twice each. -/
def c4Ads : List GeneratedAd := c4Ad "zzzz zzzz" :: List.replicate 10 (c4Ad "aaaa aaaa")

/-- **C4, counterexample**: with 11 qualifying ads, the code keeps the first
10 in storage order — `slice(0, 10)` on an oldest-first store — so the oldest
ad's token `zzzz` reaches the suggestion, while the claim's "10 most recent
such ads" selection would drop it: the two pipelines give different
suggestions on the same store. -/
theorem claim_C4_counterexample :
    analyzeKeywordPerformance c4Ads = [mkKeywordSugg ["aaaa", "zzzz"] 10] ∧
    keywordMostRecentResult c4Ads = [mkKeywordSugg ["aaaa"] 10] ∧
    analyzeKeywordPerformance c4Ads ≠ keywordMostRecentResult c4Ads :=
  ⟨by decide, by decide, by decide⟩

/-- **C4, amended**: the selection keeps the *first* 10 qualifying ads in
store iteration order (the 10 oldest), not the 10 most recent.  With that:
the analyzer emits nothing when fewer than 3 qualify, and otherwise its
output is the claim's tokenize → drop short/stop words → count → keep count
≥ 2 → sort by descending count → top 5 pipeline, naming the top 3 tokens in
one `keywords`/`medium`/confidence-70 suggestion; every reported token is an
eligible token occurring at least twice, at most 5 are kept, and they are in
descending-count order. -/
theorem claim_C4_amended : ∀ ads : List GeneratedAd,
    analyzeKeywordPerformance ads =
      (if 3 ≤ (keywordSelected ads).length then
        (if commonWordsSpec (keywordSelected ads) = [] then []
         else [mkKeywordSugg (commonWordsSpec (keywordSelected ads))
                (keywordSelected ads).length])
       else []) ∧
    (∀ w ∈ commonWordsSpec (keywordSelected ads),
      wordEligible w = true ∧ 2 ≤ (keywordTokens (keywordSelected ads)).count w) ∧
    (commonWordsSpec (keywordSelected ads)).length ≤ 5 ∧
    List.Pairwise (fun u v => (keywordTokens (keywordSelected ads)).count v ≤
      (keywordTokens (keywordSelected ads)).count u) (commonWordsSpec (keywordSelected ads)) := by
  intro ads
  refine ⟨?_, fun w hw => mem_commonWordsSpec hw, commonWordsSpec_length _,
    commonWordsSpec_sorted _⟩
  simp only [analyzeKeywordPerformance, keywordSelected, extractCommonWords_eq]
  by_cases h3 : 3 ≤ ((ads.filter keywordQualifies).take 10).length
  · rw [if_pos h3, if_pos h3]
    by_cases hw : commonWordsSpec ((ads.filter keywordQualifies).take 10) = []
    · rw [if_pos hw, hw]
      rfl
    · rw [if_neg hw]
      rw [if_neg (by simpa [List.isEmpty_iff] using hw)]
  · rw [if_neg h3, if_neg h3]

end AdCopy
